import Mathlib

/-!
# Verification of the directory-scraper core

Shallow embedding of the heuristic structure-detection / extraction engine of
the `directory-scraper` repository (`scraper/utils.py`, `scraper/extractor.py`,
`scraper/analyzer.py`, `scraper/llm_extractor.py`, `scraper/main.py`)
together with proofs about the properties its specification states.

Modelling conventions:
* HTML documents are modelled as a tree (`Html`), mirroring the parsed
  BeautifulSoup tree; `find` / `find_all` traverse descendants in document
  (pre-)order, as BeautifulSoup does.
* The network fetcher (`scraper/fetcher.py`, an external collaborator built on
  requests/playwright) is modelled as an oracle `String → Option Html`.
* The LLM enrichment client (OpenAI, external) is modelled as an oracle
  producing a response record for a requested field subset.
* Python `dict`s keep insertion order; records are association lists with the
  same update semantics.
* Python float thresholds (`len(elements) * 0.5`, `len(data) * 0.3`) are
  modelled by exact rational comparisons; `* 0.5` is exact in binary floating
  point, and no claim depends on the rounding of `0.3`.
* `list(set(xs))` (Python set dedup with arbitrary iteration order) is
  modelled as an order-normalising `dedup`; no claim depends on that order.
-/

namespace Scraper

/-! ## Basic string helpers -/

/-- `str.lower()` (ASCII, which covers every pattern the source matches). -/
def toLowerStr (s : String) : String := String.mk (s.data.map Char.toLower)

/-- `str.strip()`: whitespace removed from both ends. -/
def strTrim (s : String) : String :=
  String.mk (((s.data.dropWhile Char.isWhitespace).reverse.dropWhile
    Char.isWhitespace).reverse)

/-- does `s` start with `pre` (`str.startswith`)? -/
def strStartsWith (s pre : String) : Bool := pre.data.isPrefixOf s.data

/-- does `s` end with `suf` (`str.endswith`)? -/
def strEndsWith (s suf : String) : Bool :=
  suf.data.reverse.isPrefixOf s.data.reverse

/-- does `s` contain the character `c` (`c in s`)? -/
def strHasChar (s : String) (c : Char) : Bool := s.data.contains c

/-- `str.replace(pat, rep)`: all occurrences, left to right, non-overlapping
(the fuel is an upper bound on the scan steps). -/
def replaceAux (pat rep : List Char) : Nat → List Char → List Char
  | 0, l => l
  | _, [] => []
  | fuel + 1, c :: cs =>
    if !pat.isEmpty && pat.isPrefixOf (c :: cs) then
      rep ++ replaceAux pat rep fuel ((c :: cs).drop pat.length)
    else c :: replaceAux pat rep fuel cs

def strReplace (s pat rep : String) : String :=
  String.mk (replaceAux pat.data rep.data s.data.length s.data)

/-- code-point lexicographic order on strings (Python string `sorted`). -/
def lexLe : List Char → List Char → Bool
  | [], _ => true
  | _ :: _, [] => false
  | a :: as, b :: bs => if a = b then lexLe as bs else decide (a.toNat < b.toNat)

def insertSorted (x : String) : List String → List String
  | [] => [x]
  | y :: ys => if lexLe x.data y.data then x :: y :: ys else y :: insertSorted x ys

/-- `sorted(strings)`. -/
def sortStrings : List String → List String
  | [] => []
  | x :: xs => insertSorted x (sortStrings xs)

/-- Substring test: does `sub` occur inside `s` (Python `sub in s`)? -/
def strContains (s sub : String) : Bool :=
  s.data.tails.any (fun t => sub.data.isPrefixOf t)

/-- Case-insensitive substring test (models `re.search(pat, s, re.I)` for a
plain-text pattern `pat`). -/
def strContainsCI (s sub : String) : Bool :=
  strContains (toLowerStr s) (toLowerStr sub)

/-- Case-insensitive prefix test (models `re.search('^pat', s, re.I)`). -/
def strStartsCI (s sub : String) : Bool :=
  strStartsWith (toLowerStr s) (toLowerStr sub)

/-- Does `s` contain any of the given fragments, case-insensitively?  Models
`re.search(r'(k1|k2|...)', s, re.I)` for plain-word alternatives. -/
def containsAnyCI (s : String) (keys : List String) : Bool :=
  keys.any (fun k => strContainsCI s k)

def isWordChar (c : Char) : Bool := c.isAlphanum || c = '_'

/-- Does the word `w` occur in `s` delimited by `\b` boundaries at position
`i`? Helper for `re.search(r'\bw\b', s)` with a plain word `w`. -/
def wordAt (s w : List Char) (i : Nat) : Bool :=
  (List.isPrefixOf w (s.drop i)) &&
  (i = 0 || !(isWordChar (s.getD (i - 1) ' '))) &&
  (i + w.length ≥ s.length || !(isWordChar (s.getD (i + w.length) ' ')))

/-- `re.search(r'\bw\b', s, re.I)` for a plain word `w`. -/
def containsWordCI (s w : String) : Bool :=
  let l := (toLowerStr s).data
  let wl := (toLowerStr w).data
  (List.range (l.length + 1)).any (fun i => wordAt l wl i)

def containsAnyWordCI (s : String) (keys : List String) : Bool :=
  keys.any (fun k => containsWordCI s k)

/-- `re.sub(r'\s+', ' ', s)`: collapse whitespace runs to single spaces (the
flag records whether the previous character was whitespace). -/
def collapseWsAux : Bool → List Char → List Char
  | _, [] => []
  | prevWs, c :: cs =>
    if c.isWhitespace then
      if prevWs then collapseWsAux true cs else ' ' :: collapseWsAux true cs
    else c :: collapseWsAux false cs

/-- `clean_text` (utils.py): collapse whitespace runs to single spaces and
strip. -/
def clean_text (s : String) : String :=
  strTrim (String.mk (collapseWsAux false s.data))

/-! ## HTML document model -/

mutual
/-- A parsed HTML node: an element with tag name, class token list, other
attributes, and children; or a text node.  (`Html`/`HtmlList` are a mutual
pair so that the traversal functions are structurally recursive.) -/
inductive Html where
  | elem (name : String) (classes : List String)
      (attrs : List (String × String)) (children : HtmlList)
  | text (s : String)

inductive HtmlList where
  | nil
  | cons (h : Html) (t : HtmlList)
end

mutual
def decEqHtml : (a b : Html) → Decidable (a = b)
  | .text s, .text t =>
    if h : s = t then isTrue (congrArg Html.text h)
    else isFalse (fun he => h (by injection he))
  | .text _, .elem _ _ _ _ => isFalse (fun he => Html.noConfusion he)
  | .elem _ _ _ _, .text _ => isFalse (fun he => Html.noConfusion he)
  | .elem n c a cs, .elem n' c' a' cs' =>
    if h1 : n = n' then
      if h2 : c = c' then
        if h3 : a = a' then
          match decEqHtmlList cs cs' with
          | isTrue h4 => isTrue (by rw [h1, h2, h3, h4])
          | isFalse h4 => isFalse (fun he => by injection he with e1 e2 e3 e4; exact h4 e4)
        else isFalse (fun he => by injection he with e1 e2 e3 e4; exact h3 e3)
      else isFalse (fun he => by injection he with e1 e2 e3 e4; exact h2 e2)
    else isFalse (fun he => by injection he with e1 e2 e3 e4; exact h1 e1)

def decEqHtmlList : (as bs : HtmlList) → Decidable (as = bs)
  | .nil, .nil => isTrue rfl
  | .nil, .cons _ _ => isFalse (fun he => HtmlList.noConfusion he)
  | .cons _ _, .nil => isFalse (fun he => HtmlList.noConfusion he)
  | .cons x xs, .cons y ys =>
    match decEqHtml x y, decEqHtmlList xs ys with
    | isTrue h1, isTrue h2 => isTrue (by rw [h1, h2])
    | isFalse h1, _ => isFalse (fun he => by injection he with e1 e2; exact h1 e1)
    | _, isFalse h2 => isFalse (fun he => by injection he with e1 e2; exact h2 e2)
end

instance : DecidableEq Html := decEqHtml
instance : DecidableEq HtmlList := decEqHtmlList
instance : BEq Html := instBEqOfDecidableEq

def HtmlList.ofList : List Html → HtmlList
  | [] => .nil
  | h :: t => .cons h (HtmlList.ofList t)

def HtmlList.toList : HtmlList → List Html
  | .nil => []
  | .cons h t => h :: t.toList

/-- element builder over plain child lists. -/
def He (name : String) (classes : List String)
    (attrs : List (String × String)) (children : List Html) : Html :=
  .elem name classes attrs (.ofList children)

namespace Html

def tagName : Html → String
  | .elem n _ _ _ => n
  | .text _ => ""

def classes : Html → List String
  | .elem _ cs _ _ => cs
  | .text _ => []

def attrsOf : Html → List (String × String)
  | .elem _ _ a _ => a
  | .text _ => []

def childrenOf : Html → List Html
  | .elem _ _ _ c => c.toList
  | .text _ => []

def isElem : Html → Bool
  | .elem _ _ _ _ => true
  | .text _ => false

/-- `el.get(attr)`: attribute lookup (class is kept separately). -/
def getAttr (el : Html) (k : String) : Option String :=
  (el.attrsOf.find? (fun p => p.1 == k)).map Prod.snd

end Html

mutual
/-- `el.get_text()`: concatenation of all text nodes below the element. -/
def Html.getText : Html → String
  | .text s => s
  | .elem _ _ _ cs => Html.getTextList cs

/-- text of a list of nodes -/
def Html.getTextList : HtmlList → String
  | .nil => ""
  | .cons h t => Html.getText h ++ Html.getTextList t
end

mutual
/-- `el.get_text(strip=True)`: each text fragment stripped, concatenated. -/
def getTextStrip : Html → String
  | .text s => strTrim s
  | .elem _ _ _ cs => getTextStripList cs

def getTextStripList : HtmlList → String
  | .nil => ""
  | .cons h t => getTextStrip h ++ getTextStripList t
end

mutual
/-- All element descendants of a node, in document (pre-)order, excluding the
node itself — the search space of BeautifulSoup `find` / `find_all`. -/
def descendants : Html → List Html
  | .text _ => []
  | .elem _ _ _ cs => descendantsList cs

def descendantsList : HtmlList → List Html
  | .nil => []
  | .cons (.text _) t => descendantsList t
  | .cons (.elem n c a cs) t =>
    .elem n c a cs :: (descendantsList cs ++ descendantsList t)
end

mutual
/-- Element descendants paired with their ancestor chain (nearest first); the
chain of a node also carries every enclosing element up to the root. -/
def descendantsAnc (anc : List Html) : Html → List (Html × List Html)
  | .text _ => []
  | .elem n c a cs => descendantsAncList (.elem n c a cs :: anc) cs

def descendantsAncList (anc : List Html) : HtmlList → List (Html × List Html)
  | .nil => []
  | .cons (.text _) t => descendantsAncList anc t
  | .cons (.elem n c a cs) t =>
    (Html.elem n c a cs, anc) ::
      (descendantsAncList (.elem n c a cs :: anc) cs ++ descendantsAncList anc t)
end

mutual
/-- `tag.string`: the unique string below a tag, when the tag has exactly one
child all the way down to a NavigableString. -/
def Html.nodeString : Html → Option String
  | .text s => some s
  | .elem _ _ _ cs => HtmlList.soleString cs

def HtmlList.soleString : HtmlList → Option String
  | .cons c .nil => Html.nodeString c
  | _ => none
end

namespace Html

/-- `el.find_all(pred)` over element descendants (document order). -/
def findAll (el : Html) (p : Html → Bool) : List Html :=
  (descendants el).filter p

/-- `el.find(pred)`: first matching element descendant or `None`. -/
def findFirst (el : Html) (p : Html → Bool) : Option Html :=
  (descendants el).find? p

/-- `el.children`, tags only (`hasattr(c, 'name')` keeps only Tags). -/
def childTags (el : Html) : List Html :=
  el.childrenOf.filter isElem

end Html

/-- Does the element's name equal one of the names (`find_all(['a','b'])`)? -/
def nameIn (el : Html) (names : List String) : Bool :=
  names.any (fun n => el.tagName == n)

/-- BeautifulSoup class matching for `attrs={'class': re.compile(kws, re.I)}`:
the regex is tried against each class token. -/
def classMatchAnyCI (el : Html) (keys : List String) : Bool :=
  el.classes.any (fun c => containsAnyCI c keys)

/-- Class matching for patterns of the form `re.compile(r'\bword\b', re.I)`. -/
def classMatchAnyWordCI (el : Html) (keys : List String) : Bool :=
  el.classes.any (fun c => containsAnyWordCI c keys)

/-- `find_all(tag, class_=True)`: element has a class attribute. -/
def hasClassAttr (el : Html) : Bool :=
  !el.classes.isEmpty

/-! ## utils.py : email and phone pattern extraction

The regexes of `extract_email` / `extract_phone` are implemented as explicit
leftmost-match scanners with the same greedy/backtracking semantics. -/

def isAsciiAlnum (c : Char) : Bool := c.isAlphanum
def isEmailLocal (c : Char) : Bool :=
  c.isAlphanum || c = '.' || c = '_' || c = '%' || c = '+' || c = '-'
def isEmailDomain (c : Char) : Bool := c.isAlphanum || c = '.' || c = '-'

/-- `\b` at position `i` of `s` given that the pattern character at the
boundary is a word character. -/
def boundaryBefore (s : List Char) (i : Nat) : Bool :=
  i = 0 || !(isWordChar (s.getD (i - 1) ' '))

def boundaryAfter (s : List Char) (i : Nat) : Bool :=
  i ≥ s.length || !(isWordChar (s.getD i ' '))

/-- Match of `\b[A-Za-z0-9][A-Za-z0-9._%+-]*@[A-Za-z0-9][A-Za-z0-9.-]*\.[A-Za-z]{2,}\b`
starting at position `i`; returns the exclusive end position. -/
def emailMatchAt (s : List Char) (i : Nat) : Option Nat :=
  if boundaryBefore s i && isAsciiAlnum (s.getD i '@') then
    -- local part: greedy run (the following '@' is not in the class, so the
    -- maximal run is the only possibility)
    let j := i + 1 + ((s.drop (i + 1)).takeWhile isEmailLocal).length
    if s.getD j '.' = '@' && isAsciiAlnum (s.getD (j + 1) '@') then
      let m := j + 2
      let rMax := ((s.drop m).takeWhile isEmailDomain).length
      -- greedy `[A-Za-z0-9.-]*` with backtracking for `\.[A-Za-z]{2,}\b`
      ((List.range (rMax + 1)).reverse.findSome? fun p =>
        if s.getD (m + p) ' ' = '.' then
          let dr := ((s.drop (m + p + 1)).takeWhile Char.isAlpha).length
          if dr ≥ 2 && boundaryAfter s (m + p + 1 + dr) then
            some (m + p + 1 + dr)
          else none
        else none)
    else none
  else none

/-- Python `str.strip('.')`. -/
def stripDots (s : List Char) : List Char :=
  ((s.dropWhile (· = '.')).reverse.dropWhile (· = '.')).reverse

/-- `extract_email` (utils.py). -/
def extract_email (text : String) : Option String :=
  if text = "" then none
  else
    let s := text.data
    ((List.range s.length).findSome? fun i =>
      (emailMatchAt s i).map fun e => (i, e)).map fun (i, e) =>
        String.mk (stripDots ((s.drop i).take (e - i)))

/-- separator class `[-.\s]` of the phone regex -/
def isPhoneSep (c : Char) : Bool := c = '-' || c = '.' || c.isWhitespace

/-- choices for an optional single character (`X?`): greedy, present first. -/
def optChar (s : List Char) (p : Nat) (pred : Char → Bool) : List Nat :=
  if p < s.length && pred (s.getD p ' ') then [p + 1, p] else [p]

/-- exactly `n` characters satisfying `pred` starting at `p`. -/
def eatN (s : List Char) (p n : Nat) (pred : Char → Bool) : Option Nat :=
  if ((s.drop p).take n).length = n && ((s.drop p).take n).all pred then
    some (p + n)
  else none

/-- Pattern 1: `\b(?:\+?1[-.\s]?)?\(?(\d{3})\)?[-.\s]?(\d{3})[-.\s]?(\d{4})\b`. -/
def phone1MatchAt (s : List Char) (i : Nat) : Option Nat :=
  if boundaryBefore s i then
    -- (?:\+?1[-.\s]?)? : try the present branch first (greedy)
    let pre : List Nat :=
      ((optChar s i (· = '+')).flatMap fun p =>
        if s.getD p ' ' = '1' then optChar s (p + 1) isPhoneSep else []) ++ [i]
    pre.findSome? fun p1 =>
      (optChar s p1 (· = '(')).findSome? fun p2 =>
        (eatN s p2 3 Char.isDigit).bind fun p3 =>
          (optChar s p3 (· = ')')).findSome? fun p4 =>
            (optChar s p4 isPhoneSep).findSome? fun p5 =>
              (eatN s p5 3 Char.isDigit).bind fun p6 =>
                (optChar s p6 isPhoneSep).findSome? fun p7 =>
                  (eatN s p7 4 Char.isDigit).bind fun p8 =>
                    if boundaryAfter s p8 then some p8 else none
  else none

/-- Pattern 2: `\b(\d{10})\b`. -/
def phone2MatchAt (s : List Char) (i : Nat) : Option Nat :=
  if boundaryBefore s i then
    (eatN s i 10 Char.isDigit).bind fun e =>
      if boundaryAfter s e then some e else none
  else none

/-- `\s*`: greedy with backtracking — all stop positions, longest first. -/
def wsRuns (s : List Char) (p : Nat) : List Nat :=
  let m := ((s.drop p).takeWhile Char.isWhitespace).length
  (List.range (m + 1)).reverse.map (p + ·)

/-- Pattern 3: `\b\+?1?\s*\(?(\d{3})\)?\s*(\d{3})\s*(\d{4})\b`. -/
def phone3MatchAt (s : List Char) (i : Nat) : Option Nat :=
  if boundaryBefore s i then
    (optChar s i (· = '+')).findSome? fun p0 =>
      (optChar s p0 (· = '1')).findSome? fun p1 =>
        (wsRuns s p1).findSome? fun p2 =>
          (optChar s p2 (· = '(')).findSome? fun p3 =>
            (eatN s p3 3 Char.isDigit).bind fun p4 =>
              (optChar s p4 (· = ')')).findSome? fun p5 =>
                (wsRuns s p5).findSome? fun p6 =>
                  (eatN s p6 3 Char.isDigit).bind fun p7 =>
                    (wsRuns s p7).findSome? fun p8 =>
                      (eatN s p8 4 Char.isDigit).bind fun p9 =>
                        if boundaryAfter s p9 then some p9 else none
  else none

def firstMatchOf (m : List Char → Nat → Option Nat) (s : List Char) :
    Option String :=
  ((List.range s.length).findSome? fun i => (m s i).map fun e => (i, e)).map
    fun (i, e) => String.mk ((s.drop i).take (e - i))

/-- `extract_phone` (utils.py): the three patterns tried in order, the matched
text returned stripped. -/
def extract_phone (text : String) : Option String :=
  if text = "" then none
  else
    let s := text.data
    ((firstMatchOf phone1MatchAt s).orElse fun _ =>
      (firstMatchOf phone2MatchAt s).orElse fun _ =>
        firstMatchOf phone3MatchAt s).map strTrim

/-! ## URL model (`urllib.parse` as used by utils.py / analyzer.py)

URLs are strings.  `urlparse`/`urlunparse` are modelled by splitting at the
first `?` and `#`; `parse_qs`/`urlencode(doseq=True)` by `&`/`=` splitting
into an insertion-ordered grouped association list.  Percent-encoding is
modelled as the identity (the parameter alphabet of the claims needs none). -/

/-- split a character list at every occurrence of `c`. -/
def splitSep (c : Char) : List Char → List (List Char)
  | [] => [[]]
  | x :: xs =>
    if x = c then [] :: splitSep c xs
    else
      match splitSep c xs with
      | [] => [[x]]
      | h :: t => (x :: h) :: t

def joinSep (c : Char) : List (List Char) → List Char
  | [] => []
  | [p] => p
  | p :: q :: t => p ++ c :: joinSep c (q :: t)

/-- split at the first occurrence of `c`: the part before, and (when `c`
occurs) the part after. -/
def splitFirst (c : Char) (l : List Char) : List Char × Option (List Char) :=
  let pre := l.takeWhile (· ≠ c)
  match l.dropWhile (· ≠ c) with
  | [] => (pre, none)
  | _ :: rest => (pre, some rest)

/-- `urlparse`-lite: (before query, query, fragment). The fragment starts at
the first `#`; the query lies between the first `?` and the fragment. -/
def urlsplitLite (url : String) : String × String × String :=
  let (main, frag) := splitFirst '#' url.data
  let (pre, q) := splitFirst '?' main
  (String.mk pre, String.mk (q.getD []), String.mk (frag.getD []))

/-- `urlunparse`-lite: `?`/`#` are emitted only for non-empty components. -/
def urlunsplitLite (pre q frag : String) : String :=
  pre ++ (if q = "" then "" else "?" ++ q) ++ (if frag = "" then "" else "#" ++ frag)

/-- one `k=v` token of a query string: dropped without `=` or with an empty
value (`parse_qsl` with `keep_blank_values=False`). -/
def parseTok (tok : List Char) : Option (String × String) :=
  let k := tok.takeWhile (· ≠ '=')
  match tok.dropWhile (· ≠ '=') with
  | [] => none
  | _ :: v => if v = [] then none else some (String.mk k, String.mk v)

def parsePairs (q : String) : List (String × String) :=
  (splitSep '&' q.data).filterMap parseTok

/-- fold one pair into the grouped dict (insertion order, `parse_qs`). -/
def addPair (acc : List (String × List String)) (kv : String × String) :
    List (String × List String) :=
  if acc.any (fun e => e.1 == kv.1) then
    acc.map (fun e => if e.1 == kv.1 then (e.1, e.2 ++ [kv.2]) else e)
  else acc ++ [(kv.1, [kv.2])]

def groupPairs (ps : List (String × String)) : List (String × List String) :=
  ps.foldl addPair []

/-- `parse_qs(query)`. -/
def parseQs (q : String) : List (String × List String) :=
  groupPairs (parsePairs q)

def flattenGroups (q : List (String × List String)) : List (String × String) :=
  (q.map (fun g => g.2.map (fun v => (g.1, v)))).flatten

def encodePairs (ps : List (String × String)) : String :=
  String.mk (joinSep '&' (ps.map fun kv => kv.1.data ++ '=' :: kv.2.data))

/-- `urlencode(query_params, doseq=True)`. -/
def urlencodeGrouped (q : List (String × List String)) : String :=
  encodePairs (flattenGroups q)

/-- `query_params[key] = [str(value)]` — dict update: replace in place, else
append. -/
def setGroupKey (q : List (String × List String)) (k v : String) :
    List (String × List String) :=
  if q.any (fun e => e.1 == k) then
    q.map (fun e => if e.1 == k then (k, [v]) else e)
  else q ++ [(k, [v])]

/-- `update_url_params` (utils.py), for a single parameter. -/
def update_url_params (url : String) (k v : String) : String :=
  let (pre, q, frag) := urlsplitLite url
  urlunsplitLite pre (urlencodeGrouped (setGroupKey (parseQs q) k v)) frag

/-- parsed query parameters of a URL. -/
def queryParams (url : String) : List (String × List String) :=
  parseQs (urlsplitLite url).2.1

/-- `urljoin` (via `normalize_url`, utils.py), modelled for the common cases:
absolute references, scheme-relative, root-relative, query/fragment-only and
plain relative references (no `..` resolution). -/
def schemeOf (url : String) : String :=
  String.mk (url.data.takeWhile (· ≠ ':'))

def originOf (url : String) : String :=
  match url.data.dropWhile (· ≠ '/') with
  | '/' :: '/' :: rest =>
    String.mk (url.data.takeWhile (· ≠ '/') ++ '/' :: '/' :: rest.takeWhile (· ≠ '/'))
  | _ => String.mk (url.data.takeWhile (· ≠ '/'))

def stripQueryFrag (url : String) : String :=
  (urlsplitLite url).1

/-- base directory of a URL: everything up to and including the last `/` of
its path (query and fragment removed). -/
def dirOf (url : String) : String :=
  let p := (stripQueryFrag url).data
  let o := (originOf url).data
  let path := p.drop o.length
  String.mk (o ++ (path.reverse.dropWhile (· ≠ '/')).reverse)

def normalize_url (base url : String) : String :=
  if url = "" then base
  else
    let r := strTrim url
    if strContains r "://" then r
    else if strStartsWith r "//" then schemeOf base ++ ":" ++ r
    else if strStartsWith r "/" then originOf base ++ r
    else if strStartsWith r "#" then
      let (main, _) := splitFirst '#' base.data
      String.mk main ++ r
    else if strStartsWith r "?" then stripQueryFrag base ++ r
    else dirOf base ++ r

/-! ## Records and field schemas -/

/-- Field schema: insertion-ordered mapping field name → description. -/
abbrev Schema := List (String × String)

/-- A record: insertion-ordered mapping field name → value or null. -/
abbrev Rec := List (String × Option String)

/-- Python truthiness of an extracted value (`None` and `""` are falsy). -/
def truthy : Option String → Bool
  | some s => !(s == "")
  | none => false

/-- `result.get(field)` distinguished from a stored null: `some none` means
the key is present with value `None` (first matching entry, as in a dict). -/
def recGet : Rec → String → Option (Option String)
  | [], _ => none
  | p :: t, k => if p.1 == k then some p.2 else recGet t k

def recHas (r : Rec) (k : String) : Bool :=
  r.any (fun p => p.1 == k)

/-- `result[k] = v`: dict update (replace in place, append when new). -/
def recSet (r : Rec) (k : String) (v : Option String) : Rec :=
  if recHas r k then r.map (fun p => if p.1 == k then (k, v) else p)
  else r ++ [(k, v)]

def recKeys (r : Rec) : List String := r.map Prod.fst

def schemaKeys (s : Schema) : List String := s.map Prod.fst

/-! ## extractor.py : per-field extraction -/

/-- anchor with an `href` attribute (`find_all('a', href=True)`). -/
def isAnchorHref (t : Html) : Bool :=
  t.tagName == "a" && (t.getAttr "href").isSome

/-- anchor whose `href` matches the given regex-as-predicate. -/
def anchorHrefMatch (t : Html) (p : String → Bool) : Bool :=
  t.tagName == "a" && (match t.getAttr "href" with
    | some h => p h
    | none => false)

/-- `_extract_email_field`, mailto branch:
`element.find('a', href=re.compile(r'^mailto:', re.I))`, address from the href
with `mailto:` removed (case-sensitively), query dropped, stripped. -/
def processMailtoHref (href : String) : String :=
  strTrim (String.mk ((strReplace href "mailto:" "").data.takeWhile (fun c => c ≠ '?')))

/-- anchor with `href` matching `re.compile(r'^mailto:', re.I)`. -/
def isMailtoAnchor (t : Html) : Bool :=
  anchorHrefMatch t (fun h => strStartsCI h "mailto:")

def emailViaMailto (el : Html) : Option String :=
  (el.findFirst isMailtoAnchor).bind
    fun a =>
      let email := processMailtoHref ((a.getAttr "href").getD "")
      if email ≠ "" && strHasChar email '@' then some email else none

def emailViaDataAttrs (el : Html) : Option String :=
  ["data-email", "data-mail", "data-contact"].findSome? fun attr =>
    (el.getAttr attr).bind fun v =>
      if v ≠ "" then
        let email := strTrim v
        if email ≠ "" && strHasChar email '@' then some email else none
      else none

def emailViaClasses (el : Html) : Option String :=
  ["email", "mail", "contact"].findSome? fun pat =>
    (el.findFirst (fun t => nameIn t ["span", "div", "p", "td"] &&
      classMatchAnyCI t [pat])).bind fun e => extract_email e.getText

def emailViaLinks (el : Html) : Option String :=
  (el.findAll isAnchorHref).findSome? fun link =>
    let href := (link.getAttr "href").getD ""
    if strHasChar href '@' && strHasChar href '.' &&
        !(["http:", "https:", "tel:", "javascript:"].any
          (fun p => strStartsWith href p)) then
      some (strTrim href)
    else extract_email (getTextStrip link)

/-- `_extract_email_field` (extractor.py). -/
def extract_email_field (el : Html) : Option String :=
  (emailViaMailto el).orElse fun _ =>
    (emailViaDataAttrs el).orElse fun _ =>
      (emailViaClasses el).orElse fun _ =>
        (emailViaLinks el).orElse fun _ => extract_email el.getText

def phoneViaTel (el : Html) : Option String :=
  (el.findFirst (fun t => anchorHrefMatch t (fun h => strStartsCI h "tel:"))).bind
    fun a =>
      let phone := strTrim (strReplace (strReplace ((a.getAttr "href").getD "") "tel:" "") "+1" "")
      if phone ≠ "" then some phone else none

def phoneViaDataAttrs (el : Html) : Option String :=
  ["data-phone", "data-tel", "data-telephone"].findSome? fun attr =>
    (el.getAttr attr).bind fun v =>
      if v ≠ "" then
        let phone := strTrim v
        if phone ≠ "" then some phone else none
      else none

def phoneViaClasses (el : Html) : Option String :=
  ["phone", "tel", "telephone", "contact", "call", "mobile", "cell"].findSome?
    fun pat =>
      (el.findFirst (fun t => nameIn t ["span", "div", "p", "td", "a"] &&
        classMatchAnyWordCI t [pat])).bind fun e => extract_phone e.getText

/-- character class `[+\d\s\-\(\)\.]` of the phone label regex. -/
def isPhoneGroupChar (c : Char) : Bool :=
  c = '+' || c.isDigit || c.isWhitespace || c = '-' || c = '(' || c = ')' || c = '.'

/-- `re.search(r'(?:phone|tel|mobile|cell|contact)\s*:?\s*([+\d\s\-\(\)\.]+)', text, re.I)`,
returning group 1 (the group class contains no letters, so scanning the
lowered text returns the original characters). -/
def labelPhoneSearch (text : String) : Option String :=
  let s := (toLowerStr text).data
  (List.range (s.length + 1)).findSome? fun i =>
    (["phone", "tel", "mobile", "cell", "contact"].findSome? fun kw =>
      if List.isPrefixOf kw.data (s.drop i) then some (i + kw.length) else none).bind
      fun k =>
        (wsRuns s k).findSome? fun a =>
          (optChar s a (· = ':')).findSome? fun b =>
            (wsRuns s b).findSome? fun c =>
              let g := (s.drop c).takeWhile isPhoneGroupChar
              if g.length ≥ 1 then some (String.mk g) else none

def phoneViaLabel (el : Html) : Option String :=
  (labelPhoneSearch el.getText).bind fun g =>
    let potential := strTrim g
    if (extract_phone potential).isSome then some potential else none

/-- `_extract_phone_field` (extractor.py). -/
def extract_phone_field (el : Html) : Option String :=
  (phoneViaTel el).orElse fun _ =>
    (phoneViaDataAttrs el).orElse fun _ =>
      (phoneViaClasses el).orElse fun _ =>
        (phoneViaLabel el).orElse fun _ => extract_phone el.getText

/-- `_extract_url_field` (extractor.py). -/
def extract_url_field (el : Html) (base : String) : Option String :=
  (el.findFirst isAnchorHref).map fun link =>
    normalize_url base ((link.getAttr "href").getD "")

/-- `re.search(r'url\([\'"]?([^\'"\)]+)[\'"]?\)', style)`, group 1. -/
def bgUrlSearch (style : String) : Option String :=
  let s := style.data
  (List.range (s.length + 1)).findSome? fun i =>
    if List.isPrefixOf "url(".data (s.drop i) then
      (optChar s (i + 4) (fun c => c = '\'' || c = '"')).findSome? fun j =>
        let g := (s.drop j).takeWhile (fun c => !(c = '\'' || c = '"' || c = ')'))
        if g.length ≥ 1 then
          (optChar s (j + g.length) (fun c => c = '\'' || c = '"')).findSome?
            fun q =>
              if s.getD q ' ' = ')' then some (String.mk g) else none
        else none
    else none

/-- `_extract_image_field` (extractor.py). -/
def extract_image_field (el : Html) (base : String) : Option String :=
  match el.findFirst (fun t => t.tagName == "img" && (t.getAttr "src").isSome) with
  | some img => some (normalize_url base ((img.getAttr "src").getD ""))
  | none =>
    let style := (el.getAttr "style").getD ""
    if strContains style "background-image" then
      (bgUrlSearch style).map (normalize_url base)
    else none

/-- `_get_direct_text` (extractor.py): the element's own text nodes plus small
inline children; first fragment longer than 2 characters. -/
def getDirectText (el : Html) : Option String :=
  let texts := el.childrenOf.filterMap fun c =>
    match c with
    | .text s =>
      let t := clean_text s
      if t ≠ "" then some t else none
    | .elem n _ _ _ =>
      if ["span", "b", "i", "strong", "em", "small"].contains n then
        let t := clean_text c.getText
        if t ≠ "" then some t else none
      else none
  ((texts.filter (fun t => t.length > 2)).head?)

/-- `_extract_name_or_title` (extractor.py). -/
def extract_name_or_title (el : Html) : Option String :=
  (["h1", "h2", "h3", "h4", "h5"].findSome? fun tag =>
    (el.findFirst (fun t => t.tagName == tag)).bind fun h =>
      let text := clean_text h.getText
      if text ≠ "" && 2 < text.length && text.length < 200 then some text
      else none).orElse fun _ =>
  (["name", "title", "heading", "label", "header"].findSome? fun pat =>
    (el.findFirst (fun t =>
      nameIn t ["div", "span", "p", "td", "th", "strong", "b"] &&
      classMatchAnyWordCI t [pat])).bind fun named =>
        let text := clean_text named.getText
        if text ≠ "" && 2 < text.length && text.length < 200 then some text
        else none).orElse fun _ =>
  ((el.findFirst (fun t => nameIn t ["strong", "b"])).bind fun strong =>
    let text := clean_text strong.getText
    if text ≠ "" && 2 < text.length && text.length < 200 &&
        !(strEndsWith text ":") then some text
    else none).orElse fun _ =>
  ((el.findAll isAnchorHref).findSome? fun link =>
    let href := (link.getAttr "href").getD ""
    if !(["mailto:", "tel:", "javascript:", "#"].any
        (fun p => strStartsWith href p)) then
      let text := clean_text link.getText
      if text ≠ "" && 2 < text.length && text.length < 200 then some text
      else none
    else none).orElse fun _ =>
  (["data-name", "data-title"].findSome? fun attr =>
    (el.getAttr attr).bind fun v =>
      if v ≠ "" then
        let text := clean_text v
        if text ≠ "" && 2 < text.length && text.length < 200 then some text
        else none
      else none).orElse fun _ =>
  ((getDirectText el).bind fun direct =>
    if 2 < direct.length && direct.length < 200 &&
        !(extract_email direct).isSome && !(extract_phone direct).isSome then
      some direct
    else none)

/-- `_extract_bio` (extractor.py). -/
def extract_bio (el : Html) : Option String :=
  (["bio", "description", "about", "summary", "content"].findSome? fun pat =>
    (el.findFirst (fun t => nameIn t ["div", "p", "span"] &&
      classMatchAnyCI t [pat])).bind fun b =>
        let text := clean_text b.getText
        if text ≠ "" && text.length > 50 then some text else none).orElse fun _ =>
  (let paragraphs := el.findAll (fun t => t.tagName == "p")
   if !paragraphs.isEmpty then
     let bio := String.intercalate " " (paragraphs.map (fun p => clean_text p.getText))
     if bio ≠ "" && bio.length > 50 then some bio else none
   else none).orElse fun _ =>
  (let allText := clean_text el.getText
   if allText.length > 100 then some (String.mk (allText.data.take 1000))
   else none)

/-- `re.search(r'([A-Z][a-z]+(?:\s+[A-Z][a-z]+)*),\s*([A-Z]{2})', text)`,
group 0. -/
def cityUnitEnds (s : List Char) (q fuel : Nat) : List Nat :=
  match fuel with
  | 0 => [q]
  | fuel + 1 =>
    q ::
      (let w := ((s.drop q).takeWhile Char.isWhitespace).length
       if w ≥ 1 && (s.getD (q + w) ' ').isUpper then
         let r := ((s.drop (q + w + 1)).takeWhile Char.isLower).length
         if r ≥ 1 then cityUnitEnds s (q + w + 1 + r) fuel else []
       else [])

def cityStateSearch (text : String) : Option String :=
  let s := text.data
  (List.range s.length).findSome? fun i =>
    if (s.getD i ' ').isUpper then
      let r := ((s.drop (i + 1)).takeWhile Char.isLower).length
      if r ≥ 1 then
        ((cityUnitEnds s (i + 1 + r) s.length).reverse.findSome? fun q =>
          if s.getD q ' ' = ',' then
            let w := ((s.drop (q + 1)).takeWhile Char.isWhitespace).length
            if (s.getD (q + 1 + w) ' ').isUpper &&
                (s.getD (q + 2 + w) ' ').isUpper then
              some (String.mk ((s.drop i).take (q + 3 + w - i)))
            else none
          else none)
      else none
    else none

def streetSuffixes : List String :=
  ["Street", "St", "Avenue", "Ave", "Road", "Rd", "Boulevard", "Blvd",
   "Drive", "Dr", "Lane", "Ln", "Way"]

def isWordOrWs (c : Char) : Bool := isWordChar c || c.isWhitespace

/-- `re.search(r'\d+\s+[\w\s]+(?:Street|St|...|Way)', text, re.I)`, group 0. -/
def streetSearch (text : String) : Option String :=
  let s := text.data
  let low := (toLowerStr text).data
  (List.range s.length).findSome? fun i =>
    let d := ((s.drop i).takeWhile Char.isDigit).length
    if d ≥ 1 then
      let wMax := ((s.drop (i + d)).takeWhile Char.isWhitespace).length
      ((List.range wMax).reverse.map (· + 1)).findSome? fun w =>
        let b := i + d + w
        let rMax := ((s.drop b).takeWhile isWordOrWs).length
        ((List.range rMax).reverse.map (· + 1)).findSome? fun e =>
          streetSuffixes.findSome? fun suf =>
            if List.isPrefixOf (toLowerStr suf).data (low.drop (b + e)) then
              some (String.mk ((s.drop i).take (b + e + suf.length - i)))
            else none
    else none

/-- `_extract_address` (extractor.py). -/
def extract_address (el : Html) : Option String :=
  ((el.findFirst (fun t => t.tagName == "address")).bind fun a =>
    let text := clean_text a.getText
    if text ≠ "" then some text else none).orElse fun _ =>
  (["data-address", "data-location", "data-city"].findSome? fun attr =>
    (el.getAttr attr).bind fun v =>
      if v ≠ "" then
        let text := clean_text v
        if text ≠ "" then some text else none
      else none).orElse fun _ =>
  (["location", "address", "city", "state", "region", "area", "locale",
    "place", "office"].findSome? fun pat =>
      (el.findFirst (fun t => nameIn t ["div", "span", "p", "td"] &&
        classMatchAnyWordCI t [pat])).bind fun loc =>
          let text := clean_text loc.getText
          if text ≠ "" && text.length > 3 then some text else none).orElse fun _ =>
  ((el.findFirst (fun t => nameIn t ["div", "span"] &&
      (match t.getAttr "itemprop" with
       | some v => containsAnyCI v ["address", "location"]
       | none => false))).bind fun sa =>
    let text := clean_text sa.getText
    if text ≠ "" then some text else none).orElse fun _ =>
  (cityStateSearch el.getText).orElse fun _ =>
  streetSearch el.getText

/-- maximal runs of word characters: `re.findall(r'\b\w+\b', s)`. -/
def wordRuns : List Char → List String
  | [] => []
  | c :: cs =>
    if isWordChar c then
      let run := c :: cs.takeWhile isWordChar
      String.mk run :: wordRuns (cs.dropWhile isWordChar)
    else wordRuns cs
termination_by l => l.length
decreasing_by
  · exact Nat.lt_succ_of_le (List.Sublist.length_le (List.dropWhile_sublist _))
  · simp

def genericStopWords : List String :=
  ["the", "and", "for", "that", "with", "from", "extract", "get", "find"]

/-- `re.search(f"{keyword}\\s*[:\\-]\\s*([^\\n<]+)", text, re.I)`, group 1
(scanned on the lowered text; the match is a label lookup whose group is
compared/returned after `strip`). -/
def labelKwSearch (text kw : String) : Option String :=
  let s := (toLowerStr text).data
  let orig := text.data
  (List.range (s.length + 1)).findSome? fun i =>
    if List.isPrefixOf (toLowerStr kw).data (s.drop i) then
      (wsRuns s (i + kw.length)).findSome? fun a =>
        if s.getD a ' ' = ':' || s.getD a ' ' = '-' then
          (wsRuns s (a + 1)).findSome? fun b =>
            let g := (orig.drop b).takeWhile (fun c => !(c = '\n' || c = '<'))
            if g.length ≥ 1 then some (String.mk g) else none
        else none
    else none

/-- `_extract_generic_text` (extractor.py).  `list(set(...))` iterates in an
arbitrary (hash) order in Python; modelled as first-occurrence dedup. -/
def extract_generic_text (el : Html) (field_description field_name : String) :
    Option String :=
  let keywords := wordRuns (toLowerStr field_description).data ++
    wordRuns (toLowerStr field_name).data
  let significant := (keywords.filter
    (fun k => k.length ≥ 3 && !(genericStopWords.contains k))).eraseDups
  (significant.findSome? fun keyword =>
    (let found := (el.findFirst (fun t =>
        nameIn t ["div", "span", "p", "td", "dd", "li"] &&
        classMatchAnyCI t [keyword])).orElse fun _ =>
      el.findFirst (fun t =>
        nameIn t ["div", "span", "p", "td", "dd", "li"] &&
        (match t.getAttr "id" with
         | some v => strContainsCI v keyword
         | none => false))
     (found.bind fun f =>
       let text := clean_text f.getText
       if text ≠ "" && text.length > 2 then some text else none)).orElse fun _ =>
    ((el.getAttr ("data-" ++ keyword)).bind fun v =>
      if v ≠ "" then
        let text := clean_text v
        if text ≠ "" then some text else none
      else none).orElse fun _ =>
    (labelKwSearch el.getText keyword).map strTrim).orElse fun _ =>
  (["dd", "blockquote", "p", "span"].findSome? fun tag =>
    (el.findFirst (fun t => t.tagName == tag)).bind fun e =>
      let text := clean_text e.getText
      if text ≠ "" && text.length > 2 then some text else none).orElse fun _ =>
  (let allText := clean_text el.getText
   if allText ≠ "" && allText.length > 2 then
     some (String.mk (allText.data.take 500))
   else none)

/-- `_extract_field` (extractor.py): dispatch on the field name. -/
def extract_field (el : Html) (field_name field_description base : String) :
    Option String :=
  let n := toLowerStr field_name
  if strContains n "email" then extract_email_field el
  else if strContains n "phone" then extract_phone_field el
  else if strContains n "url" || strContains n "link" then
    extract_url_field el base
  else if strContains n "image" || strContains n "photo" then
    extract_image_field el base
  else if ["name", "title", "position", "role"].contains n then
    extract_name_or_title el
  else if strContains n "bio" || strContains n "description" then
    extract_bio el
  else if strContains n "address" || strContains n "location" then
    extract_address el
  else extract_generic_text el field_description field_name

/-! ## extractor.py : row-level and element-level extraction -/

/-- one step of strategy 1 of `_extract_from_table_row`: content-based cell
assignment (`continue` after a successful claim). -/
def assignByContent (fieldNames : List String) (assignments : List (String × Nat))
    (cell : Html) (i : Nat) : List (String × Nat) :=
  let cellText := clean_text cell.getText
  -- email detection
  if fieldNames.contains "email" && !(assignments.any (fun a => a.1 == "email")) &&
      ((cell.findFirst (fun t => anchorHrefMatch t
        (fun h => strContainsCI h "mailto:"))).isSome ||
       (extract_email cellText).isSome) then
    assignments ++ [("email", i)]
  else if fieldNames.contains "phone" && !(assignments.any (fun a => a.1 == "phone")) &&
      ((cell.findFirst (fun t => anchorHrefMatch t
        (fun h => strContainsCI h "tel:"))).isSome ||
       (extract_phone cellText).isSome) then
    assignments ++ [("phone", i)]
  else
    match fieldNames.find? (fun f =>
      strContains (toLowerStr f) "url" || strContains (toLowerStr f) "link" ||
      strContains (toLowerStr f) "website") with
    | some urlField =>
      if !(assignments.any (fun a => a.1 == urlField)) then
        match cell.findFirst isAnchorHref with
        | some link =>
          if !(["mailto:", "tel:", "#"].any (fun p =>
              strStartsWith ((link.getAttr "href").getD "") p)) then
            assignments ++ [(urlField, i)]
          else assignments
        | none => assignments
      else assignments
    | none => assignments

/-- one step of strategy 2: positional assignment of the first unassigned
field whose condition accepts this cell. -/
def assignByPosition (fieldNames : List String) (assignments : List (String × Nat))
    (cell : Html) (i : Nat) : List (String × Nat) :=
  if assignments.any (fun a => a.2 == i) then assignments
  else
    let cellText := clean_text cell.getText
    if cellText == "" || cellText.length < 2 then assignments
    else
      match fieldNames.find? (fun f =>
        !(assignments.any (fun a => a.1 == f)) &&
        (let fl := toLowerStr f
         if ["name", "title", "position", "role"].contains fl then
           2 < cellText.length && cellText.length < 200
         else if strContains fl "bio" || strContains fl "description" then
           cellText.length > 50
         else true)) with
      | some f => assignments ++ [(f, i)]
      | none => assignments

/-- indexed fold helper -/
def foldIdx {α β : Type} (f : β → α → Nat → β) (init : β) (l : List α) : β :=
  ((l.enum.map (fun p => (p.2, p.1))).foldl (fun acc p => f acc p.1 p.2) init)

/-- `_extract_from_table_row` (extractor.py). -/
def extract_from_table_row (row : Html) (schema : Schema) (base : String) : Rec :=
  let cells := row.findAll (fun t => nameIn t ["td", "th"])
  if cells.isEmpty then
    schema.map (fun kv => (kv.1, extract_field row kv.1 kv.2 base))
  else
    let fieldNames := schemaKeys schema
    let a1 := foldIdx (assignByContent fieldNames) [] cells
    let assignments := foldIdx (assignByPosition fieldNames) a1 cells
    schema.map fun kv =>
      (kv.1,
       match assignments.find? (fun a => a.1 == kv.1) with
       | some a =>
         if a.2 < cells.length then
           extract_field (cells.getD a.2 row) kv.1 kv.2 base
         else none
       | none => extract_field row kv.1 kv.2 base)

/-- header ↔ field matching score of `extract_from_table_row_with_headers`. -/
def headerFieldScore (header fieldName : String) : Nat :=
  let h := toLowerStr header
  let n := toLowerStr fieldName
  let base :=
    if n == h then 100
    else if strContains h n then 80
    else if strContains n h then 60
    else 0
  if strContains h "email" && strContains n "email" then 90
  else if strContains h "phone" && strContains n "phone" then 90
  else if (strContains h "address" || strContains h "location") &&
      (strContains n "address" || strContains n "location") then 90
  else if (strContains h "link" || strContains h "website") &&
      (strContains n "url" || strContains n "website") then 90
  else if (strContains h "type" || strContains h "category") &&
      (strContains n "type" || strContains n "category") then 90
  else base

/-- accepted (column, field) pairs, in column order then schema order —
`col_to_fields` flattened in its iteration order. -/
def acceptedPairs (headers : List String) (schema : Schema) (numCells : Nat) :
    List (Nat × String) :=
  (((headers.take numCells).enum.map (fun p => (p.2, p.1))).map fun hi =>
    (schema.filterMap fun kv =>
      if headerFieldScore hi.1 kv.1 > 50 then some (hi.2, kv.1) else none)).flatten

/-- value merge step of `extract_from_table_row_with_headers`: append with a
separating space unless the new value occurs in the existing text
(`value not in result[field]`). -/
def addCellValue (r : Rec) (f : String) (v : Option String) : Rec :=
  if truthy v then
    if truthy ((recGet r f).join) then
      let old := ((recGet r f).join).getD ""
      let newv := v.getD ""
      if strContains old newv then r
      else recSet r f (some (old ++ " " ++ newv))
    else recSet r f v
  else r

/-- `for field_name in field_schema: if field_name not in result: ... = None`. -/
def fillMissing (r : Rec) (schema : Schema) : Rec :=
  schema.foldl (fun acc kv => if recHas acc kv.1 then acc else acc ++ [(kv.1, none)]) r

/-- `extract_from_table_row_with_headers` (extractor.py). -/
def extract_from_table_row_with_headers (row : Html) (schema : Schema)
    (base : String) (headers : List String) : Rec :=
  let cells := row.findAll (fun t => nameIn t ["td", "th"])
  if cells.isEmpty then extract_from_table_row row schema base
  else
    let pairs := acceptedPairs headers schema cells.length
    let merged := pairs.foldl
      (fun r p =>
        addCellValue r p.2
          (extract_field (cells.getD p.1 row) p.2
            (((schema.find? (fun kv => kv.1 == p.2)).map Prod.snd).getD "") base))
      []
    fillMissing merged schema

/-- `extract_from_element` (extractor.py): table rows get table-aware
extraction, everything else the generic per-field extractor. -/
def extract_from_element (el : Html) (schema : Schema) (base : String) : Rec :=
  if el.tagName == "tr" then extract_from_table_row el schema base
  else schema.map (fun kv => (kv.1, extract_field el kv.1 kv.2 base))

/-- `DetailPageExtractor.extract_from_page` (extractor.py): find the main
content region, then run the per-field extractor over it. -/
def extract_from_page (soup : Html) (schema : Schema) (base : String) : Rec :=
  let mainContent :=
    ((soup.findFirst (fun t => t.tagName == "main")).orElse fun _ =>
      (soup.findFirst (fun t => t.tagName == "article")).orElse fun _ =>
        (soup.findFirst (fun t => t.tagName == "div" &&
          classMatchAnyCI t ["content", "main", "profile", "detail"])).orElse
          fun _ => soup.findFirst (fun t => t.tagName == "body")).getD soup
  schema.map (fun kv => (kv.1, extract_field mainContent kv.1 kv.2 base))

/-! ## analyzer.py : structure analysis -/

def navKeywords : List String :=
  ["nav", "menu", "header", "footer", "sidebar", "breadcrumb", "pagination"]

def navTextWords : List String :=
  ["home", "about", "contact", "login", "sign in", "menu", "search", "next", "prev"]

/-- `_is_navigation_element` (analyzer.py). -/
def is_navigation_element (el : Html) : Bool :=
  let classesJoined := toLowerStr (String.intercalate " " el.classes)
  if navKeywords.any (fun k => strContains classesJoined k) then true
  else
    let text := getTextStrip el
    if text.length < 10 && !(el.findAll (fun t => t.tagName == "a")).isEmpty &&
        (el.findAll (fun t => nameIn t ["p", "div"])).isEmpty then true
    else navTextWords.contains (toLowerStr text)

/-- ancestor-based filter of `find_repeating_elements`: not inside
`nav`/`footer`/`header`, and no ancestor with a literal `nav`/`menu` class. -/
def passesParentFilter (anc : List Html) : Bool :=
  !(anc.any (fun p => ["nav", "footer", "header"].contains p.tagName)) &&
  !(anc.any (fun p => p.classes.contains "nav" || p.classes.contains "menu"))

/-- attribute selector of a generation pass. -/
inductive AttrSel where
  | classRe (keys : List String)
  | classTrue
  | noAttrs
deriving DecidableEq

def matchSel (el : Html) : AttrSel → Bool
  | .classRe keys => classMatchAnyCI el keys
  | .classTrue => hasClassAttr el
  | .noAttrs => true

def personClasses : List String :=
  ["person", "member", "profile", "employee", "staff", "student", "faculty",
   "directory-item"]

/-- `container_patterns` (analyzer.py), in priority order. -/
def containerPatterns : List (String × AttrSel) :=
  [("div", .classRe personClasses),
   ("li", .classRe personClasses),
   ("article", .classRe personClasses),
   ("tr", .noAttrs),
   ("div", .classRe ["card", "entry", "result", "listing", "item", "row", "col"]),
   ("li", .classRe ["entry", "result", "listing", "item"]),
   ("article", .noAttrs),
   ("div", .classTrue),
   ("li", .noAttrs)]

/-- per-element score of `_score_elements`. -/
def scoreElement (el : Html) : Nat :=
  (if (el.findFirst (fun t => anchorHrefMatch t
      (fun h => strContainsCI h "mailto:"))).isSome then 15 else 0) +
  (if (el.findFirst (fun t => anchorHrefMatch t
      (fun h => strContainsCI h "tel:"))).isSome then 15 else 0) +
  (let links := el.findAll isAnchorHref
   if !links.isEmpty then min (links.length * 3) 15 else 0) +
  (let text := getTextStrip el
   if 20 < text.length && text.length < 1000 then 10
   else if text.length ≥ 1000 then 5 else 0) +
  (if (el.findFirst (fun t => t.tagName == "img")).isSome then 5 else 0) +
  (let children := el.childTags
   if 2 ≤ children.length && children.length ≤ 30 then 10 else 0) +
  (if el.tagName == "li" then 5 else if el.tagName == "tr" then 5 else 0)

/-- `_score_elements` (analyzer.py): average over the first 5 members
(integer division). -/
def score_elements (els : List Html) : Nat :=
  if els.isEmpty then 0
  else
    let sample := els.take 5
    (sample.map scoreElement).sum / sample.length

def headerKeywords : List String :=
  ["name", "email", "phone", "title", "position", "department", "role", "contact"]

/-- header classification of `_filter_table_headers`: header cells, or ≥2
header keywords with no mail/phone links. -/
def rowIsHeader (row : Html) : Bool :=
  !(row.findAll (fun t => t.tagName == "th")).isEmpty ||
  (let text := toLowerStr (getTextStrip row)
   headerKeywords.countP (fun k => strContains text k) ≥ 2 &&
   (row.findAll (fun t => anchorHrefMatch t
     (fun h => strContainsCI h "mailto:" || strContainsCI h "tel:"))).isEmpty)

/-- scan of the first `fuel` (= 3) rows: rows from the first non-header on. -/
def findCut : List Html → Nat → Option (List Html)
  | _, 0 => none
  | [], _ => none
  | r :: rest, fuel + 1 =>
    if rowIsHeader r then findCut rest fuel else some (r :: rest)

/-- `_filter_table_headers` (analyzer.py). -/
def filter_table_headers (rows : List Html) : List Html :=
  if rows.isEmpty then rows
  else
    match findCut rows 3 with
    | some tail => tail
    | none => rows

/-- `tr` rows grouped per enclosing table (`find_parent('table')`; Python's
dict keys the tables by identity, modelled here by structural equality). -/
def groupByTable (trs : List (Html × List Html)) : List (List Html) :=
  (trs.foldl
    (fun (acc : List (Html × List Html)) tr =>
      match tr.2.find? (fun p => p.tagName == "table") with
      | none => acc
      | some tbl =>
        if acc.any (fun g => g.1 == tbl) then
          acc.map (fun g => if g.1 == tbl then (g.1, g.2 ++ [tr.1]) else g)
        else acc ++ [(tbl, [tr.1])])
    []).map Prod.snd

/-- `_find_by_structure_similarity` (analyzer.py). -/
def structureSimilarity (soup : Html) : List Html :=
  let candidates := (soup.findAll (fun t =>
    nameIn t ["div", "li", "article", "section", "tr"])).filter
      (fun el => (getTextStrip el).length ≥ 10)
  let groups := candidates.foldl
    (fun (acc : List ((String × List String) × List Html)) el =>
      let sig := (el.tagName,
        sortStrings ((el.childTags.map Html.tagName).filter (· ≠ "")))
      if acc.any (fun g => g.1 == sig) then
        acc.map (fun g => if g.1 == sig then (g.1, g.2 ++ [el]) else g)
      else acc ++ [(sig, [el])])
    []
  -- `weighted_score = score * (min(len, 50) / 10.0)`: the groups all share the
  -- denominator 10, so their numerators are compared (exact arithmetic in
  -- place of the float computation)
  (groups.foldl
    (fun (best : List Html × Nat) g =>
      if g.2.length ≥ 3 then
        let w := score_elements g.2 * min g.2.length 50
        if w > best.2 then (g.2, w) else best
      else best)
    ([], 0)).1

/-- strategy 1 of `find_repeating_elements`: best candidate set over the
generation passes, with its weighted score. -/
def strategy1 (soup : Html) : List Html × Nat :=
  containerPatterns.foldl
    (fun best pat =>
      let raw := (descendantsAnc [] soup).filter
        (fun p => p.1.tagName == pat.1 && matchSel p.1 pat.2)
      let elements := raw.filter
        (fun p => passesParentFilter p.2 && !(is_navigation_element p.1))
      let candidateSets : List (List Html) :=
        if pat.1 == "tr" && pat.2 == .noAttrs then groupByTable elements
        else [elements.map Prod.fst]
      candidateSets.foldl
        (fun b cs =>
          if cs.length ≥ 3 then
            -- `weighted_score = score * (min(len, 20) / 20.0)`: every candidate
            -- shares the denominator 20, so the numerator is compared (exact
            -- arithmetic in place of the float computation)
            let w := score_elements cs * min cs.length 20
            if w > b.2 then (cs, w) else b
          else b)
        best)
    ([], 0)

/-- `find_repeating_elements` (analyzer.py). -/
def find_repeating_elements (soup : Html) : List Html :=
  let best := strategy1 soup
  let cands :=
    -- `max_score < 10` and `structure_score > max_score`, with `max_score`
    -- carried as a numerator over the denominator 20
    if best.1.isEmpty || best.2 < 10 * 20 then
      let sc := structureSimilarity soup
      if !sc.isEmpty then
        if score_elements sc * 20 > best.2 then sc else best.1
      else best.1
    else best.1
  match cands with
  | [] => []
  | c :: _ => if c.tagName == "tr" then filter_table_headers cands else cands

/-! ## analyzer.py : pagination -/

/-- `detect_pagination`'s result dictionary (the unused `pattern` key is
omitted; it is never written). -/
structure PagInfo where
  has_pagination : Bool
  ptype : Option String
  param_name : Option String
  total_pages : Option Nat
  next_url : Option String
deriving DecidableEq

def paramNames : List String :=
  ["page", "p", "pg", "pagenum", "offset", "start", "from"]

def isDigitStr (s : String) : Bool := s ≠ "" && s.data.all Char.isDigit

def toNatDigits (s : String) : Nat :=
  s.data.foldl (fun n c => n * 10 + (c.toNat - '0'.toNat)) 0

/-- the pagination container: first of the three selectors that matches. -/
def findPagContainer (soup : Html) : Option Html :=
  (soup.findFirst (fun t => t.tagName == "nav" && classMatchAnyCI t ["paginat"])).orElse
    fun _ =>
      (soup.findFirst (fun t => t.tagName == "div" &&
        classMatchAnyCI t ["paginat"])).orElse fun _ =>
        soup.findFirst (fun t => t.tagName == "ul" && classMatchAnyCI t ["paginat"])

/-- the "next" control inside the container. -/
def nextLinkOf (nav : Html) : Option Html :=
  (nav.findFirst (fun t => t.tagName == "a" &&
    (match t.nodeString with
     | some s => containsAnyCI s ["next", "»", "›", ">"]
     | none => false))).orElse fun _ =>
    (nav.findFirst (fun t => t.tagName == "a" && classMatchAnyCI t ["next"])).orElse
      fun _ =>
        nav.findFirst (fun t => t.tagName == "a" &&
          (match t.getAttr "rel" with
           | some r => ((splitSep ' ' r.data).map String.mk).contains "next"
           | none => false))

/-- `re.search(r'load\s*more|show\s*more', s, re.I)` (both keywords have
length 4). -/
def loadMoreMatch (s : String) : Bool :=
  let l := (toLowerStr s).data
  (List.range (l.length + 1)).any fun i =>
    ["load", "show"].any fun kw =>
      List.isPrefixOf kw.data (l.drop i) &&
      List.isPrefixOf "more".data ((l.drop (i + 4)).dropWhile Char.isWhitespace)

def findLoadMore (soup : Html) : Option Html :=
  soup.findFirst fun t =>
    nameIn t ["button", "a"] &&
    (match t.nodeString with
     | some s => loadMoreMatch s
     | none => false)

/-- `StructureAnalyzer.detect_pagination` (analyzer.py). -/
def detect_pagination (soup : Html) (current_url : String) : PagInfo :=
  let q := queryParams current_url
  let pFound := paramNames.find? (fun p => q.any (fun e => e.1 == p))
  let base : PagInfo :=
    { has_pagination := pFound.isSome
      ptype := if pFound.isSome then some "url_param" else none
      param_name := pFound
      total_pages := none
      next_url := none }
  let withNav :=
    match findPagContainer soup with
    | none => base
    | some nav =>
      let nextUrl := (nextLinkOf nav).bind fun nl =>
        (nl.getAttr "href").bind fun h =>
          if h ≠ "" then some (normalize_url current_url h) else none
      let pageNumbers := (nav.findAll isAnchorHref).filterMap fun link =>
        let t := getTextStrip link
        if isDigitStr t then some (toNatDigits t) else none
      { base with
        has_pagination := true
        next_url := nextUrl
        total_pages :=
          if pageNumbers.isEmpty then none
          else some (pageNumbers.foldl max 0) }
  match findLoadMore soup with
  | none => withNav
  | some _ => { withNav with ptype := some "button", has_pagination := true }

/-- `PaginationHandler.generate_pages` (analyzer.py). -/
def generate_pages (base_url : String) (info : PagInfo) (max_pages : Nat) :
    List String :=
  if !info.has_pagination then [base_url]
  else if info.ptype == some "url_param" && (info.param_name.getD "") ≠ "" then
    let param := info.param_name.getD ""
    let numPages :=
      match info.total_pages with
      | some t => if t ≠ 0 then min t max_pages else max_pages
      | none => max_pages
    base_url ::
      (List.range' 2 (numPages - 1)).map
        (fun n => update_url_params base_url param (toString n))
  else
    match info.next_url with
    | some nu => if nu ≠ "" then [base_url, nu] else [base_url]
    | none => [base_url]

/-- `StructureAnalyzer.extract_links_from_elements` (analyzer.py). -/
def extract_links_from_elements (elements : List Html) (base_url : String) :
    List String :=
  (elements.filterMap fun element =>
    match element.findFirst isAnchorHref with
    | none => none
    | some link =>
      let href0 := (link.getAttr "href").getD ""
      let href :=
        if ["mailto:", "tel:", "javascript:", "#"].any
            (fun p => strStartsWith href0 p) then
          match (element.findAll isAnchorHref).find? (fun al =>
            !(["mailto:", "tel:", "javascript:", "#"].any
              (fun p => strStartsWith ((al.getAttr "href").getD "") p))) with
          | some alt => (alt.getAttr "href").getD ""
          | none => href0
        else href0
      if ["mailto:", "tel:", "javascript:", "#"].any
          (fun p => strStartsWith href p) then none
      else
        let url := normalize_url base_url href
        let lastSeg := String.mk ((url.data.reverse.takeWhile (fun c => c ≠ '/')).reverse)
        if strContains lastSeg "#" then none else some url).dedup

inductive PageType where
  | listing
  | detail
deriving DecidableEq

/-- `StructureAnalyzer.detect_detail_page_type` (analyzer.py). -/
def detect_detail_page_type (soup : Html) : PageType :=
  if (find_repeating_elements soup).length ≥ 3 then .listing
  else
    let d1 := (soup.findFirst (fun t => t.tagName == "div" &&
      classMatchAnyCI t ["profile", "bio", "about", "detail"])).isSome
    let d2 := (soup.findFirst (fun t => t.tagName == "h1")).isSome
    let d3 := (getTextStrip soup).length > 1000
    if d1 || d2 || d3 then .detail else .listing

/-! ## llm_extractor.py : enrichment

`extract_from_html` calls the external OpenAI client on the element's HTML
and the requested field subset; it is modelled as an oracle.  An unconfigured
or failing client is the particular oracle answering all-null. -/

/-- Enrichment oracle: `extract_from_html(html_of(el), requested_fields)`. -/
abbrev Enrich := Html → Schema → Rec

/-- merge step of `smart_extract`:
`if value and not result.get(field): result[field] = value`. -/
def enrichStep (result : Rec) (fv : String × Option String) : Rec :=
  if truthy fv.2 && !(truthy ((recGet result fv.1).join)) then
    recSet result fv.1 fv.2
  else result

/-- `LLMExtractor.smart_extract` (llm_extractor.py). -/
def smart_extract (oracle : Enrich) (el : Html) (schema : Schema)
    (fallback : Rec) : Rec :=
  if fallback.isEmpty then oracle el schema
  else
    let missing := schema.filter (fun kv => !(truthy ((recGet fallback kv.1).join)))
    if missing.isEmpty then fallback
    else
      let llmData := oracle el missing
      llmData.foldl enrichStep fallback

/-! ## main.py : orchestration

The fetcher is the oracle `Fetch`; the concurrent detail-page fan-out is
aggregated in input order (completion order is unspecified in the source and
no claim depends on it); the pacing `time.sleep` calls are pure no-ops. -/

abbrev Fetch := String → Option Html

/-- scraper configuration: the optional enrichment oracle (`use_llm`) and the
page ceiling; workers/timeout/verbosity do not affect results. -/
structure ScraperCfg where
  llm : Option Enrich
  max_pages : Nat

/-- The LLM fill-in step duplicated in `_extract_from_elements` and
`_extract_from_detail_page` (main.py): if the LLM is enabled and more than
30% of the fields are falsy, run `smart_extract` over the element. -/
def llmMerge (llm : Option Enrich) (el : Html) (schema : Schema)
    (data : Rec) : Rec :=
  match llm with
  | none => data
  | some oracle =>
    let missing := data.countP (fun kv => !(truthy kv.2))
    if missing * 10 > data.length * 3 then smart_extract oracle el schema data
    else data

/-- `DirectoryScraper._extract_from_detail_page` (main.py). -/
def extract_from_detail_page (cfg : ScraperCfg) (soup : Html) (schema : Schema)
    (url : String) : Rec :=
  let data := extract_from_page soup schema url
  let data :=
    if schema.any (fun kv => kv.1 == "page_url") then
      recSet data "page_url" (some url)
    else if schema.any (fun kv => kv.1 == "url") then
      recSet data "url" (some url)
    else data
  llmMerge cfg.llm soup schema data

/-- `DirectoryScraper._extract_from_elements` (main.py). -/
def extract_from_elements_m (cfg : ScraperCfg) (elements : List Html)
    (schema : Schema) (base_url : String) : List Rec :=
  elements.map fun element =>
    llmMerge cfg.llm element schema (extract_from_element element schema base_url)

/-- `DirectoryScraper._scrape_detail_pages` (main.py): one fetch-and-extract
per URL; failed fetches and falsy results are dropped. -/
def scrape_detail_pages (fetch : Fetch) (cfg : ScraperCfg) (urls : List String)
    (schema : Schema) : List Rec :=
  urls.filterMap fun url =>
    match fetch url with
    | none => none
    | some soup =>
      let r := extract_from_detail_page cfg soup schema url
      if r.isEmpty then none else some r

/-- `DirectoryScraper._extract_from_listing_page` (main.py): locate elements,
then route to detail fan-out (`len(links) >= len(elements) * 0.5`, exact in
floating point) or to direct extraction. -/
def extract_from_listing_page (fetch : Fetch) (cfg : ScraperCfg) (soup : Html)
    (schema : Schema) (page_url : String) : List Rec :=
  let elements := find_repeating_elements soup
  if elements.isEmpty then []
  else
    let links := extract_links_from_elements elements page_url
    if !links.isEmpty && 2 * links.length ≥ elements.length then
      scrape_detail_pages fetch cfg links schema
    else extract_from_elements_m cfg elements schema page_url

/-- page loop of `DirectoryScraper._scrape_listing_pages`: the seed document
is reused for its own URL, other pages are fetched (failures skipped); an
empty page beyond the first stops the pagination walk. -/
def pagesLoop (fetch : Fetch) (cfg : ScraperCfg) (schema : Schema)
    (base_url : String) (initial : Html) : List String → Nat → List Rec
  | [], _ => []
  | u :: rest, idx =>
    if u == base_url then
      let pr := extract_from_listing_page fetch cfg initial schema u
      if pr.isEmpty && idx > 1 then pr
      else pr ++ pagesLoop fetch cfg schema base_url initial rest (idx + 1)
    else
      match fetch u with
      | none => pagesLoop fetch cfg schema base_url initial rest (idx + 1)
      | some soup =>
        let pr := extract_from_listing_page fetch cfg soup schema u
        if pr.isEmpty && idx > 1 then pr
        else pr ++ pagesLoop fetch cfg schema base_url initial rest (idx + 1)

/-- `DirectoryScraper._scrape_listing_pages` (main.py). -/
def scrape_listing_pages (fetch : Fetch) (cfg : ScraperCfg) (base_url : String)
    (schema : Schema) (initial : Html) : List Rec :=
  let info := detect_pagination initial base_url
  let page_urls :=
    if info.has_pagination then generate_pages base_url info cfg.max_pages
    else [base_url]
  pagesLoop fetch cfg schema base_url initial page_urls 1

/-- `DirectoryScraper.scrape` (main.py): the caller-facing operation. -/
def scrape (fetch : Fetch) (cfg : ScraperCfg) (url : String) (schema : Schema) :
    List Rec :=
  match fetch url with
  | none => []
  | some soup =>
    match detect_detail_page_type soup with
    | .detail => [extract_from_detail_page cfg soup schema url]
    | .listing => scrape_listing_pages fetch cfg url schema soup

/-! ## Concrete documents used in counterexamples and witnesses -/

/-- a fetchable page with no recognisable structure at all. -/
def emptyDoc : Html := He "html" [] [] [He "body" [] [] []]

def tdOf (s : String) : Html := He "td" [] [] [.text s]

/-! ## C9 / C7 : the table-header post-filter -/

theorem findCut_none_of_headers (rows : List Html) (fuel : Nat)
    (h : ∀ r ∈ rows.take fuel, rowIsHeader r = true) : findCut rows fuel = none := by
  induction fuel generalizing rows with
  | zero => cases rows <;> rfl
  | succ n ih =>
    cases rows with
    | nil => rfl
    | cons r rest =>
      have hr : rowIsHeader r = true := h r (by simp)
      simp only [findCut, hr, if_pos]
      exact ih rest (fun r' hmem => h r' (by simp [hmem]))

/-- C9: when each of the first three rows classifies as a header row, the
post-filter returns the original row list unchanged — the header rows are
kept rather than dropped. -/
theorem c9_all_headers_kept (rows : List Html)
    (h : ∀ r ∈ rows.take 3, rowIsHeader r = true) :
    filter_table_headers rows = rows := by
  unfold filter_table_headers
  rw [findCut_none_of_headers rows 3 h]
  split <;> rfl

/-- C9 witness: three keyword-style header rows (no mail/phone links) followed
by a data row are returned unchanged. -/
theorem c9_all_headers_kept_witness :
    filter_table_headers
      [He "tr" [] [] [tdOf "Name", tdOf "Email Phone"],
       He "tr" [] [] [tdOf "Title", tdOf "Department Role"],
       He "tr" [] [] [tdOf "Contact", tdOf "Position Name"],
       He "tr" [] [] [tdOf "Ann Lee", tdOf "x"]] =
      [He "tr" [] [] [tdOf "Name", tdOf "Email Phone"],
       He "tr" [] [] [tdOf "Title", tdOf "Department Role"],
       He "tr" [] [] [tdOf "Contact", tdOf "Position Name"],
       He "tr" [] [] [tdOf "Ann Lee", tdOf "x"]] :=
  c9_all_headers_kept _ (by decide)

/-- C7: a table of one header row (header cells) followed by exactly three
data rows post-filters to exactly the three data rows, in document order,
header excluded; the filter inspects the first rows, classifies headers by
header cells or header keywords without mail/phone links, and keeps
everything from the first non-header row on. -/
theorem c7_header_row_dropped (h d1 d2 d3 : Html)
    (hth : (h.findAll (fun t => t.tagName == "th")).isEmpty = false)
    (hd1 : rowIsHeader d1 = false) :
    filter_table_headers [h, d1, d2, d3] = [d1, d2, d3] := by
  have hh : rowIsHeader h = true := by
    unfold rowIsHeader
    simp [hth]
  simp [filter_table_headers, findCut, hh, hd1]

/-- C7 witness: a concrete `<th>` header row followed by three data rows. -/
theorem c7_header_row_dropped_witness :
    filter_table_headers
      [He "tr" [] [] [He "th" [] [] [.text "Name"]],
       He "tr" [] [] [tdOf "John Doe"],
       He "tr" [] [] [tdOf "Jane Smith"],
       He "tr" [] [] [tdOf "Bob Jones"]] =
      [He "tr" [] [] [tdOf "John Doe"],
       He "tr" [] [] [tdOf "Jane Smith"],
       He "tr" [] [] [tdOf "Bob Jones"]] :=
  c7_header_row_dropped _ _ _ _ (by decide) (by decide)

/-! ## C10 : detail-page links are duplicate-free -/

/-- C10: the detail-page link list extracted for fan-out contains no
duplicate URLs, and the fan-out produces at most one fetch-and-extract (hence
at most one record) per distinct URL in that list. -/
theorem c10_links_nodup (elements : List Html) (base_url : String)
    (fetch : Fetch) (cfg : ScraperCfg) (schema : Schema) :
    (extract_links_from_elements elements base_url).Nodup ∧
    (scrape_detail_pages fetch cfg (extract_links_from_elements elements base_url)
        schema).length ≤
      (extract_links_from_elements elements base_url).length := by
  constructor
  · exact List.nodup_dedup _
  · exact List.length_filterMap_le _ _

/-! ## Dictionary-update lemmas -/

theorem recGet_none_of_not_has {r : Rec} {k : String} (h : recHas r k = false) :
    recGet r k = none := by
  induction r with
  | nil => rfl
  | cons p t ih =>
    simp only [recHas, List.any_cons, Bool.or_eq_false_iff] at h
    rw [recGet, if_neg (by simp [h.1]), ih h.2]

theorem recGet_append (r s : Rec) (f : String) :
    recGet (r ++ s) f = ((recGet r f).orElse (fun _ => recGet s f)) := by
  induction r with
  | nil => rfl
  | cons p t ih =>
    rw [List.cons_append, recGet, recGet]
    cases hb : (p.1 == f) with
    | true => rw [if_pos rfl, if_pos rfl]; rfl
    | false => rw [if_neg (by simp), if_neg (by simp), ih]

theorem recGet_mapSet (r : Rec) (k : String) (v : Option String) (f : String) :
    recGet (r.map (fun p => if p.1 == k then (k, v) else p)) f =
      if f = k then (if recHas r k then some v else none)
      else recGet r f := by
  induction r with
  | nil => by_cases hf : f = k <;> simp [recGet, recHas, hf]
  | cons p t ih =>
    rw [List.map_cons, recGet]
    cases hb : (p.1 == k) with
    | true =>
      have hpk : p.1 = k := by simpa using hb
      rw [if_pos rfl]
      by_cases hf : f = k
      · rw [if_pos hf, if_pos (show recHas (p :: t) k by simp [recHas, hb]),
          if_pos (show ((k, v).1 == f) = true by simp [hf])]
      · have hkf : ¬ ((k, v).1 == f) = true := by
          simp only [beq_iff_eq]
          exact fun he => hf he.symm
        have hpf : ¬ (p.1 == f) = true := by
          simp only [beq_iff_eq, hpk]
          exact fun he => hf he.symm
        rw [if_neg hf, if_neg hkf, recGet, if_neg hpf]
        have := ih
        rw [if_neg hf] at this
        exact this
    | false =>
      simp only [Bool.false_eq_true, if_false]
      cases hpf : (p.1 == f) with
      | true =>
        have hfk : ¬ f = k := by
          intro he
          rw [show p.1 = f by simpa using hpf, he] at hb
          simp at hb
        rw [if_pos rfl, if_neg hfk, recGet, if_pos hpf]
      | false =>
        have hpf' : ¬ (p.1 == f) = true := by simp [hpf]
        simp only [Bool.false_eq_true, if_false]
        rw [ih]
        by_cases hf : f = k
        · rw [if_pos hf, if_pos hf,
            show recHas (p :: t) k = recHas t k by simp [recHas, hb]]
        · rw [if_neg hf, if_neg hf, recGet, if_neg hpf']

theorem recGet_recSet (r : Rec) (k : String) (v : Option String) (f : String) :
    recGet (recSet r k v) f = if f = k then some v else recGet r f := by
  unfold recSet
  by_cases hh : recHas r k
  · rw [if_pos hh, recGet_mapSet]
    by_cases hf : f = k
    · rw [if_pos hf, if_pos hf, if_pos hh]
    · rw [if_neg hf, if_neg hf]
  · rw [if_neg hh, recGet_append]
    by_cases hf : f = k
    · rw [if_pos hf, hf, recGet_none_of_not_has (by simpa using hh)]
      simp [recGet]
    · have hkf : ¬ (((k, v) : String × Option String).1 == f) = true := by
        simp only [beq_iff_eq]
        exact fun he => hf he.symm
      rw [if_neg hf, show recGet [(k, v)] f = none by rw [recGet, if_neg hkf]; rfl]
      cases recGet r f <;> rfl

theorem truthyGet_recSet (r : Rec) (k : String) (v : Option String) (f : String) :
    truthy ((recGet (recSet r k v) f).join) =
      if f = k then truthy v else truthy ((recGet r f).join) := by
  rw [recGet_recSet]
  by_cases hf : f = k <;> simp [hf]

/-! ## C4 : the enrichment merge -/

theorem enrichStep_eq_of_pos {r : Rec} {fv : String × Option String}
    (hc : (truthy fv.2 && !(truthy ((recGet r fv.1).join))) = true) :
    enrichStep r fv = recSet r fv.1 fv.2 := by
  unfold enrichStep
  rw [if_pos hc]

theorem enrichStep_eq_of_neg {r : Rec} {fv : String × Option String}
    (hc : ¬ (truthy fv.2 && !(truthy ((recGet r fv.1).join))) = true) :
    enrichStep r fv = r := by
  unfold enrichStep
  rw [if_neg hc]

theorem enrich_fold_preserves (resp : Rec) (r : Rec) (f : String)
    (h : truthy ((recGet r f).join) = true) :
    recGet (resp.foldl enrichStep r) f = recGet r f := by
  induction resp generalizing r with
  | nil => rfl
  | cons fv rest ih =>
    rw [List.foldl_cons]
    by_cases hc : (truthy fv.2 && !(truthy ((recGet r fv.1).join))) = true
    · have hne : f ≠ fv.1 := by
        intro he
        rw [← he] at hc
        rw [Bool.and_eq_true] at hc
        rw [h] at hc
        simp at hc
      have hkeep : recGet (recSet r fv.1 fv.2) f = recGet r f := by
        rw [recGet_recSet, if_neg hne]
      rw [enrichStep_eq_of_pos hc,
        ih (recSet r fv.1 fv.2) (by rw [hkeep]; exact h), hkeep]
    · rw [enrichStep_eq_of_neg hc]
      exact ih r h

theorem enrich_fold_changes_truthy (resp : Rec) (r : Rec) (f : String) :
    recGet (resp.foldl enrichStep r) f = recGet r f ∨
      (truthy ((recGet (resp.foldl enrichStep r) f).join) = true ∧
       truthy ((recGet r f).join) = false) := by
  induction resp generalizing r with
  | nil => exact Or.inl rfl
  | cons fv rest ih =>
    rw [List.foldl_cons]
    by_cases hc : (truthy fv.2 && !(truthy ((recGet r fv.1).join))) = true
    · rw [enrichStep_eq_of_pos hc]
      by_cases hf : f = fv.1
      · subst hf
        have hv : truthy fv.2 = true := (Bool.and_eq_true _ _ ▸ hc).1
        have hr : truthy ((recGet r fv.1).join) = false := by
          have h2 := (Bool.and_eq_true _ _ ▸ hc).2
          cases hzz : truthy ((recGet r fv.1).join) with
          | false => rfl
          | true => rw [hzz] at h2; simp at h2
        rcases ih (recSet r fv.1 fv.2) with he | ⟨ht, _⟩
        · right
          rw [he, truthyGet_recSet, if_pos rfl]
          exact ⟨hv, hr⟩
        · exact Or.inr ⟨ht, hr⟩
      · have hkeep : recGet (recSet r fv.1 fv.2) f = recGet r f := by
          rw [recGet_recSet, if_neg hf]
        rcases ih (recSet r fv.1 fv.2) with he | ⟨ht, hfl⟩
        · exact Or.inl (he.trans hkeep)
        · exact Or.inr ⟨ht, by rw [hkeep] at hfl; exact hfl⟩
    · rw [enrichStep_eq_of_neg hc]
      exact ih r

def oracleC4 : Enrich := fun _ _ =>
  [("email", some "other@x.com"), ("phone", some "555-1234")]

def elC4 : Html := He "div" [] [] [.text "Ann a@x.com"]

def schemaC4 : Schema := [("email", "email address"), ("phone", "phone number")]

def fallbackC4 : Rec := [("email", some "a@x.com"), ("phone", none)]

/-- C4: the enrichment merge overwrites only fields whose current value is
null/empty (a changed field was falsy before and truthy after); every field
that already holds a value keeps exactly that value.  In particular, merging
fallback `{email: "a@x.com", phone: null}` with the response
`{email: "other@x.com", phone: "555-1234"}` yields
`{email: "a@x.com", phone: "555-1234"}`. -/
theorem c4_enrichment_never_overwrites :
    (∀ (oracle : Enrich) (el : Html) (schema : Schema) (fallback : Rec)
        (f : String), fallback ≠ [] →
      (truthy ((recGet fallback f).join) = true →
        recGet (smart_extract oracle el schema fallback) f = recGet fallback f) ∧
      (recGet (smart_extract oracle el schema fallback) f ≠ recGet fallback f →
        truthy ((recGet (smart_extract oracle el schema fallback) f).join) = true ∧
        truthy ((recGet fallback f).join) = false)) ∧
    smart_extract oracleC4 elC4 schemaC4 fallbackC4 =
      [("email", some "a@x.com"), ("phone", some "555-1234")] := by
  constructor
  · intro oracle el schema fallback f hne
    have hfe : fallback.isEmpty = false := by
      cases fallback with
      | nil => exact absurd rfl hne
      | cons a t => rfl
    unfold smart_extract
    rw [hfe]
    simp only [Bool.false_eq_true, if_false]
    by_cases hm :
        (schema.filter (fun kv => !(truthy ((recGet fallback kv.1).join)))).isEmpty = true
    · rw [if_pos hm]
      exact ⟨fun _ => rfl, fun hch => absurd rfl hch⟩
    · rw [if_neg hm]
      constructor
      · exact fun ht => enrich_fold_preserves _ _ _ ht
      · intro hchanged
        rcases enrich_fold_changes_truthy
            (oracle el (schema.filter (fun kv => !(truthy ((recGet fallback kv.1).join)))))
            fallback f with he | hok
        · exact absurd he hchanged
        · exact hok
  · decide

/-- C4 witness: the general preservation statement applied at the concrete
merge of the claim's example. -/
theorem c4_enrichment_never_overwrites_witness :
    recGet (smart_extract oracleC4 elC4 schemaC4 fallbackC4) "email" =
      recGet fallbackC4 "email" :=
  (c4_enrichment_never_overwrites.1 oracleC4 elC4 schemaC4 fallbackC4 "email"
    (by decide)).1 (by decide)

/-! ## C8 : mail-link precedence in email extraction -/

/-- an element with a single mail-link to `a@x.com` plus free text containing
`b@x.com`. -/
def elC8 : Html :=
  He "div" [] []
    [He "a" [] [("href", "mailto:a@x.com")] [.text "Email"],
     .text " reach b@x.com"]

/-- an element whose FIRST mail-link is `c@z.com`, which also contains a
mail-link to `a@x.com` and free text containing `b@x.com`. -/
def elC8x : Html :=
  He "div" [] []
    [He "a" [] [("href", "mailto:c@z.com")] [.text "E1"],
     He "a" [] [("href", "mailto:a@x.com")] [.text "E2"],
     .text " reach b@x.com"]

/-- C8 counterexample: an element that does contain a mail-link whose address
is `a@x.com` and free text containing `b@x.com`, yet email extraction
returns `c@z.com`, the address of an earlier mail-link — not `a@x.com`. -/
theorem c8_counterexample :
    (elC8x.findAll (fun t =>
      anchorHrefMatch t (fun h => h == "mailto:a@x.com"))).length = 1 ∧
    strContains elC8x.getText "b@x.com" = true ∧
    extract_email_field elC8x = some "c@z.com" ∧
    some "c@z.com" ≠ some "a@x.com" := by
  refine ⟨by decide, by decide, by decide, by decide⟩

/-- C8 (amended): the FIRST mail-link of the element takes precedence: when
the first anchor with a `mailto:` href resolves to a non-empty address
containing `@`, email extraction returns exactly that address, regardless of
any email addresses in the element's free text.  In particular, an element
whose only mail-link is `a@x.com` yields `a@x.com` even when its text
contains `b@x.com`. -/
theorem c8_first_mailto_precedence (el a : Html)
    (hfind : el.findFirst isMailtoAnchor = some a)
    (hne : processMailtoHref ((a.getAttr "href").getD "") ≠ "")
    (hat : strHasChar (processMailtoHref ((a.getAttr "href").getD "")) '@' = true) :
    extract_email_field el =
      some (processMailtoHref ((a.getAttr "href").getD "")) := by
  unfold extract_email_field emailViaMailto
  rw [hfind]
  simp only [Option.bind_some, Option.some_bind]
  rw [if_pos (by simp [hne, hat])]
  rfl

/-- C8 witness: the amended precedence theorem applied to the element with
mail-link `a@x.com` and free text `b@x.com`. -/
theorem c8_first_mailto_precedence_witness :
    extract_email_field elC8 = some "a@x.com" := by
  rw [c8_first_mailto_precedence elC8
    (He "a" [] [("href", "mailto:a@x.com")] [.text "Email"])
    (by decide) (by decide) (by decide)]
  decide

/-! ## C6 : header-aware value merging -/

/-- name extraction from a cell holding a single text node: the direct-text
fallback returns the cleaned text when it has a plausible length and is
neither an email nor a phone number. -/
theorem extract_field_name_td (s d base : String)
    (h2 : 2 < (clean_text s).length) (h200 : (clean_text s).length < 200)
    (hemail : extract_email (clean_text s) = none)
    (hphone : extract_phone (clean_text s) = none) :
    extract_field (tdOf s) "name" d base = some (clean_text s) := by
  have hne : ¬ clean_text s = "" := by
    intro h
    rw [h] at h2
    simp at h2
  have hdir : getDirectText (tdOf s) = some (clean_text s) := by
    show ((([Html.text s].filterMap fun c =>
        match c with
        | .text s =>
          let t := clean_text s
          if t ≠ "" then some t else none
        | .elem n _ _ _ =>
          if ["span", "b", "i", "strong", "em", "small"].contains n then
            let t := clean_text c.getText
            if t ≠ "" then some t else none
          else none).filter (fun t => t.length > 2)).head?) = some (clean_text s)
    simp only [List.filterMap_cons, List.filterMap_nil]
    rw [if_pos hne]
    simp [List.filter, h2]
  show extract_name_or_title (tdOf s) = some (clean_text s)
  show ((getDirectText (tdOf s)).bind fun direct =>
    if 2 < direct.length && direct.length < 200 &&
        !(extract_email direct).isSome && !(extract_phone direct).isSome then
      some direct
    else none) = some (clean_text s)
  rw [hdir]
  simp [h2, h200, hemail, hphone]

def rowC6 : Html := He "tr" [] [] [tdOf "John Smith", tdOf "Smith"]

def schemaC6 : Schema := [("name", "person name")]

/-- C6 counterexample: with headers `["name", "full name"]` both columns map
to the field `name`; the cells yield `"John Smith"` and `"Smith"`, two
values that are not exactly equal, yet the second is NOT appended — the
merge runs Python's substring test `value not in result[field]`, and
`"Smith"` occurs inside `"John Smith"`. -/
theorem c6_counterexample :
    extract_field (tdOf "John Smith") "name" "person name" "http://b" =
        some "John Smith" ∧
    extract_field (tdOf "Smith") "name" "person name" "http://b" =
        some "Smith" ∧
    ("Smith" : String) ≠ "John Smith" ∧
    extract_from_table_row_with_headers rowC6 schemaC6 "http://b"
        ["name", "full name"] = [("name", some "John Smith")] := by
  refine ⟨by decide, by decide, by decide, by decide⟩

/-- C6 (amended): when two accepted (column, field) pairs feed the same field
and both cells yield a value, the second value is appended to the first with
a separating space unless the second value OCCURS WITHIN the text already
held by the field (Python's substring `in`, not exact equality); a substring
(in particular an exact duplicate) is not appended. -/
theorem c6_substring_merge (x y d : String)
    (hx2 : 2 < (clean_text x).length) (hx200 : (clean_text x).length < 200)
    (hxe : extract_email (clean_text x) = none)
    (hxp : extract_phone (clean_text x) = none)
    (hy2 : 2 < (clean_text y).length) (hy200 : (clean_text y).length < 200)
    (hye : extract_email (clean_text y) = none)
    (hyp : extract_phone (clean_text y) = none) :
    extract_from_table_row_with_headers (He "tr" [] [] [tdOf x, tdOf y])
        [("name", d)] "http://b" ["name", "full name"] =
      [("name", some (if strContains (clean_text x) (clean_text y) = true
        then clean_text x
        else clean_text x ++ " " ++ clean_text y))] := by
  have hxne : (clean_text x == "") = false := by
    simp only [beq_eq_false_iff_ne, ne_eq]
    intro h
    rw [h] at hx2
    simp at hx2
  have hyne : (clean_text y == "") = false := by
    simp only [beq_eq_false_iff_ne, ne_eq]
    intro h
    rw [h] at hy2
    simp at hy2
  have hx := extract_field_name_td x d "http://b" hx2 hx200 hxe hxp
  have hy := extract_field_name_td y d "http://b" hy2 hy200 hye hyp
  show fillMissing
    (addCellValue
      (addCellValue [] "name" (extract_field (tdOf x) "name" d "http://b"))
      "name" (extract_field (tdOf y) "name" d "http://b"))
    [("name", d)] = _
  rw [hx, hy]
  rw [show addCellValue [] "name" (some (clean_text x)) =
      [("name", some (clean_text x))] by
    unfold addCellValue
    rw [if_pos (show truthy (some (clean_text x)) = true by
        simp [truthy, hxne])]
    rw [if_neg (show ¬ truthy ((recGet [] "name").join) = true by
        simp [recGet, truthy])]
    rfl]
  unfold addCellValue
  rw [if_pos (show truthy (some (clean_text y)) = true by simp [truthy, hyne])]
  rw [if_pos (show truthy ((recGet [("name", some (clean_text x))] "name").join)
      = true by simp [recGet, truthy, Option.join, hxne])]
  have hget : ((recGet [("name", some (clean_text x))] "name").join).getD "" =
      clean_text x := by
    simp [recGet, Option.join]
  rw [hget]
  simp only [Option.getD_some]
  cases hsub : strContains (clean_text x) (clean_text y) with
  | true =>
    rw [if_pos rfl]
    rfl
  | false =>
    simp only [Bool.false_eq_true, if_false]
    rw [show recSet [("name", some (clean_text x))] "name"
        (some (clean_text x ++ " " ++ clean_text y)) =
        [("name", some (clean_text x ++ " " ++ clean_text y))] by
      unfold recSet
      rw [if_pos (by simp [recHas])]
      rfl]
    rfl

/-- C6 amended-claim witness: two non-overlapping values are appended with a
separating space. -/
theorem c6_substring_merge_witness :
    extract_from_table_row_with_headers
        (He "tr" [] [] [tdOf "John Smith", tdOf "Jane Doe"])
        [("name", "person name")] "http://b" ["name", "full name"] =
      [("name", some "John Smith Jane Doe")] := by
  rw [c6_substring_merge "John Smith" "Jane Doe" "person name"
    (by decide) (by decide) (by decide) (by decide)
    (by decide) (by decide) (by decide) (by decide)]
  decide

/-! ## C2 : when the overall result is empty -/

def fetchC2 : Fetch := fun _ => some emptyDoc

def cfgNoLlm : ScraperCfg := ⟨none, 100⟩

/-- C2 counterexample: the seed document IS fetched (the fetch oracle never
fails), yet `scrape` returns the empty record list — the fetched page simply
contains no recognisable listing structure.  Emptiness is therefore not
restricted to seed-fetch failure. -/
theorem c2_counterexample :
    fetchC2 "http://e.com/a" ≠ none ∧
    scrape fetchC2 cfgNoLlm "http://e.com/a" [("name", "person name")] = [] := by
  refine ⟨by decide, by decide⟩

/-- equation lemma: a failed seed fetch gives the empty result. -/
theorem scrape_eq_none (fetch : Fetch) (cfg : ScraperCfg) (url : String)
    (schema : Schema) (h : fetch url = none) : scrape fetch cfg url schema = [] := by
  unfold scrape
  rw [h]

theorem scrape_eq_detail (fetch : Fetch) (cfg : ScraperCfg) (url : String)
    (schema : Schema) (soup : Html) (h : fetch url = some soup)
    (hd : detect_detail_page_type soup = .detail) :
    scrape fetch cfg url schema = [extract_from_detail_page cfg soup schema url] := by
  unfold scrape
  rw [h]
  show (match detect_detail_page_type soup with
    | PageType.detail => [extract_from_detail_page cfg soup schema url]
    | PageType.listing => scrape_listing_pages fetch cfg url schema soup) = _
  rw [hd]

theorem scrape_eq_listing (fetch : Fetch) (cfg : ScraperCfg) (url : String)
    (schema : Schema) (soup : Html) (h : fetch url = some soup)
    (hd : detect_detail_page_type soup = .listing) :
    scrape fetch cfg url schema = scrape_listing_pages fetch cfg url schema soup := by
  unfold scrape
  rw [h]
  show (match detect_detail_page_type soup with
    | PageType.detail => [extract_from_detail_page cfg soup schema url]
    | PageType.listing => scrape_listing_pages fetch cfg url schema soup) = _
  rw [hd]

/-- C2 (amended): `scrape` returns the empty list exactly when the seed fetch
fails OR the seed document classifies as a listing page whose page walk
accumulates no records (e.g. no repeating structure is found); a seed that
classifies as a detail page always produces exactly one record. -/
theorem c2_empty_result_characterisation (fetch : Fetch) (cfg : ScraperCfg)
    (url : String) (schema : Schema) :
    (scrape fetch cfg url schema = [] ↔
      fetch url = none ∨
        ∃ soup, fetch url = some soup ∧
          detect_detail_page_type soup = .listing ∧
          scrape_listing_pages fetch cfg url schema soup = []) ∧
    (∀ soup, fetch url = some soup → detect_detail_page_type soup = .detail →
      (scrape fetch cfg url schema).length = 1) := by
  constructor
  · constructor
    · intro h
      cases hf : fetch url with
      | none => exact Or.inl rfl
      | some soup =>
        cases hd : detect_detail_page_type soup with
        | detail =>
          rw [scrape_eq_detail fetch cfg url schema soup hf hd] at h
          exact absurd h (by simp)
        | listing =>
          refine Or.inr ⟨soup, rfl, hd, ?_⟩
          rw [scrape_eq_listing fetch cfg url schema soup hf hd] at h
          exact h
    · rintro (h | ⟨s, hs, hl, he⟩)
      · exact scrape_eq_none fetch cfg url schema h
      · rw [scrape_eq_listing fetch cfg url schema s hs hl]
        exact he
  · intro s hs hdet
    rw [scrape_eq_detail fetch cfg url schema s hs hdet]
    rfl

/-- C2 witness: a detail-classified seed yields exactly one record. -/
def docDetail : Html :=
  He "html" [] [] [He "body" [] [] [He "h1" [] [] [.text "Dr. Jane Smith"]]]

def fetchDetail : Fetch := fun _ => some docDetail

theorem c2_empty_result_characterisation_witness :
    (scrape fetchDetail cfgNoLlm "http://e.com/p" [("name", "full name")]).length
      = 1 :=
  (c2_empty_result_characterisation fetchDetail cfgNoLlm "http://e.com/p"
    [("name", "full name")]).2 docDetail rfl (by decide)

/-! ## C5 : listing-page routing -/

/-- C5: on a listing page whose locator finds a non-empty element set, the
page is routed to detail fan-out (one fetch-and-extract per extracted link)
exactly when the distinct followable links number at least 50% of the
elements (`len(links) >= len(elements) * 0.5`, with a non-empty link list);
when the elements carry no followable links at all, records are extracted
directly, one per located element. -/
theorem c5_routing (fetch : Fetch) (cfg : ScraperCfg) (soup : Html)
    (schema : Schema) (page_url : String)
    (hne : (find_repeating_elements soup).isEmpty = false) :
    (extract_links_from_elements (find_repeating_elements soup) page_url ≠ [] →
      2 * (extract_links_from_elements (find_repeating_elements soup)
          page_url).length ≥ (find_repeating_elements soup).length →
      extract_from_listing_page fetch cfg soup schema page_url =
        scrape_detail_pages fetch cfg
          (extract_links_from_elements (find_repeating_elements soup) page_url)
          schema) ∧
    (extract_links_from_elements (find_repeating_elements soup) page_url = [] →
      extract_from_listing_page fetch cfg soup schema page_url =
        extract_from_elements_m cfg (find_repeating_elements soup) schema
          page_url ∧
      (extract_from_elements_m cfg (find_repeating_elements soup) schema
          page_url).length = (find_repeating_elements soup).length) := by
  constructor
  · intro hl hge
    simp only [extract_from_listing_page]
    rw [hne]
    simp only [Bool.false_eq_true, if_false]
    rw [if_pos (by simp [hl, hge])]
  · intro hl
    simp only [extract_from_listing_page]
    rw [hne]
    simp only [Bool.false_eq_true, if_false]
    rw [if_neg (by simp [hl])]
    exact ⟨rfl, by unfold extract_from_elements_m; rw [List.length_map]⟩

/-- C5 witness: a three-row table with no links routes to direct in-place
extraction, one record per row. -/
def docC5 : Html :=
  He "html" [] [] [He "body" [] [] [He "table" [] []
    [He "tr" [] [] [tdOf "Alice Cooper from Org One", tdOf "Research group alpha"],
     He "tr" [] [] [tdOf "Bob Dylan from Org Two", tdOf "Research group beta"],
     He "tr" [] [] [tdOf "Carol King from Org Three", tdOf "Research group gamma"]]]]

def fetchNone : Fetch := fun _ => none

theorem c5_routing_witness :
    extract_from_listing_page fetchNone cfgNoLlm docC5 [("name", "full name")]
        "http://e.com/d" =
      extract_from_elements_m cfgNoLlm (find_repeating_elements docC5)
        [("name", "full name")] "http://e.com/d" ∧
    (extract_from_elements_m cfgNoLlm (find_repeating_elements docC5)
        [("name", "full name")] "http://e.com/d").length =
      (find_repeating_elements docC5).length :=
  (c5_routing fetchNone cfgNoLlm docC5 [("name", "full name")] "http://e.com/d"
    (by decide)).2 (by decide)

/-! ## C1 : record keys always equal the schema keys -/

theorem anyKey_iff_mem {α : Type} (l : List (String × α)) (k : String) :
    (l.any (fun p => p.1 == k)) = true ↔ k ∈ l.map Prod.fst := by
  induction l with
  | nil => simp
  | cons p t ih =>
    rw [List.any_cons, List.map_cons, List.mem_cons, Bool.or_eq_true,
      beq_iff_eq, ih]
    constructor
    · rintro (h | h)
      · exact Or.inl h.symm
      · exact Or.inr h
    · rintro (h | h)
      · exact Or.inl h.symm
      · exact Or.inr h

theorem recHas_iff_mem (r : Rec) (k : String) :
    recHas r k = true ↔ k ∈ recKeys r :=
  anyKey_iff_mem r k

/-- any producer of the form `schema.map (fun kv => (kv.1, value kv))` keeps
exactly the schema's keys. -/
theorem recKeys_schemaMap (schema : Schema) (f : String × String → Option String) :
    recKeys (schema.map (fun kv => (kv.1, f kv))) = schemaKeys schema := by
  unfold recKeys schemaKeys
  rw [List.map_map]
  rfl

theorem recKeys_mapSet (r : Rec) (k : String) (v : Option String) :
    recKeys (r.map (fun p => if p.1 == k then (k, v) else p)) = recKeys r := by
  induction r with
  | nil => rfl
  | cons p t ih =>
    show ((if (p.1 == k) = true then (k, v) else p).1 ::
        recKeys (t.map (fun p => if p.1 == k then (k, v) else p))) =
      p.1 :: recKeys t
    rw [ih]
    cases hb : (p.1 == k) with
    | true =>
      have hpk : p.1 = k := by simpa using hb
      rw [if_pos rfl]
      show k :: recKeys t = p.1 :: recKeys t
      rw [hpk]
    | false =>
      rw [if_neg (by simp)]

theorem recKeys_append (r s : Rec) :
    recKeys (r ++ s) = recKeys r ++ recKeys s := by
  unfold recKeys
  rw [List.map_append]

theorem recKeys_recSet_of_has (r : Rec) (k : String) (v : Option String)
    (h : recHas r k = true) : recKeys (recSet r k v) = recKeys r := by
  unfold recSet
  rw [if_pos h, recKeys_mapSet]

theorem recKeys_recSet_sub (r : Rec) (k : String) (v : Option String) :
    recKeys (recSet r k v) ⊆ recKeys r ++ [k] := by
  unfold recSet
  split
  · rw [recKeys_mapSet]
    exact List.subset_append_left _ _
  · rw [recKeys_append]
    exact List.Subset.refl _

theorem recKeys_enrich_fold (resp : Rec) (r : Rec)
    (h : ∀ fv ∈ resp, recHas r fv.1 = true) :
    recKeys (resp.foldl enrichStep r) = recKeys r := by
  induction resp generalizing r with
  | nil => rfl
  | cons fv rest ih =>
    rw [List.foldl_cons]
    by_cases hc : (truthy fv.2 && !(truthy ((recGet r fv.1).join))) = true
    · rw [enrichStep_eq_of_pos hc]
      have hkeys : recKeys (recSet r fv.1 fv.2) = recKeys r :=
        recKeys_recSet_of_has r fv.1 fv.2 (h fv (by simp))
      rw [ih (recSet r fv.1 fv.2) ?_, hkeys]
      intro fv' hfv'
      rw [recHas_iff_mem, hkeys, ← recHas_iff_mem]
      exact h fv' (by simp [hfv'])
    · rw [enrichStep_eq_of_neg hc]
      exact ih r (fun fv' hfv' => h fv' (by simp [hfv']))

theorem schemaKeys_filter_sub (schema : Schema) (p : String × String → Bool) :
    schemaKeys (schema.filter p) ⊆ schemaKeys schema := by
  intro k hk
  unfold schemaKeys at hk ⊢
  rw [List.mem_map] at hk ⊢
  obtain ⟨kv, hkv, rfl⟩ := hk
  exact ⟨kv, List.mem_of_mem_filter hkv, rfl⟩

/-- `OracleOk o`: the enrichment collaborator honours its interface — its
response carries no key outside the requested field subset
(`enrich(fragment, {fieldName: description}) → {fieldName: value|null}`). -/
def OracleOk (o : Enrich) : Prop :=
  ∀ doc req, recKeys (o doc req) ⊆ schemaKeys req

def CfgOk (cfg : ScraperCfg) : Prop := ∀ o ∈ cfg.llm, OracleOk o

theorem recKeys_smart_extract (oracle : Enrich) (el : Html) (schema : Schema)
    (fallback : Rec) (hok : OracleOk oracle)
    (hfb : recKeys fallback = schemaKeys schema) :
    recKeys (smart_extract oracle el schema fallback) = schemaKeys schema := by
  simp only [smart_extract]
  split
  · rename_i hempty
    have hfbnil : fallback = [] := by
      cases fallback with
      | nil => rfl
      | cons a t => simp at hempty
    have hnil : schemaKeys schema = [] := by rw [← hfb, hfbnil]; rfl
    rw [hnil]
    exact List.subset_nil.mp (hnil ▸ hok el schema)
  · split
    · exact hfb
    · rw [recKeys_enrich_fold _ _ ?_, hfb]
      intro fv hfv
      rw [recHas_iff_mem, hfb]
      exact schemaKeys_filter_sub schema _
        (hok el _ (by unfold recKeys; exact List.mem_map_of_mem Prod.fst hfv))

theorem recKeys_extract_from_table_row (row : Html) (schema : Schema)
    (base : String) :
    recKeys (extract_from_table_row row schema base) = schemaKeys schema := by
  simp only [extract_from_table_row]
  split
  · exact recKeys_schemaMap schema _
  · exact recKeys_schemaMap schema _

theorem recKeys_extract_from_element (el : Html) (schema : Schema)
    (base : String) :
    recKeys (extract_from_element el schema base) = schemaKeys schema := by
  unfold extract_from_element
  split
  · exact recKeys_extract_from_table_row el schema base
  · exact recKeys_schemaMap schema _

theorem recKeys_extract_from_page (soup : Html) (schema : Schema)
    (base : String) :
    recKeys (extract_from_page soup schema base) = schemaKeys schema := by
  simp only [extract_from_page]
  exact recKeys_schemaMap schema _

theorem recKeys_llmMerge (llm : Option Enrich) (el : Html) (schema : Schema)
    (d : Rec) (hok : ∀ o ∈ llm, OracleOk o)
    (hd : recKeys d = schemaKeys schema) :
    recKeys (llmMerge llm el schema d) = schemaKeys schema := by
  cases llm with
  | none => exact hd
  | some oracle =>
    show recKeys (if d.countP (fun kv => !(truthy kv.2)) * 10 > d.length * 3 then
        smart_extract oracle el schema d else d) = schemaKeys schema
    split
    · exact recKeys_smart_extract oracle el schema d (hok oracle rfl) hd
    · exact hd

theorem recKeys_extract_from_detail_page (cfg : ScraperCfg) (soup : Html)
    (schema : Schema) (url : String) (hc : CfgOk cfg) :
    recKeys (extract_from_detail_page cfg soup schema url) = schemaKeys schema := by
  simp only [extract_from_detail_page]
  have h0 := recKeys_extract_from_page soup schema url
  have h1 : recKeys
      (if schema.any (fun kv => kv.1 == "page_url") then
        recSet (extract_from_page soup schema url) "page_url" (some url)
      else if schema.any (fun kv => kv.1 == "url") then
        recSet (extract_from_page soup schema url) "url" (some url)
      else extract_from_page soup schema url) = schemaKeys schema := by
    split
    · rename_i hany
      rw [recKeys_recSet_of_has _ _ _ (by
        rw [recHas_iff_mem, h0]
        exact (anyKey_iff_mem schema _).mp hany), h0]
    · split
      · rename_i hany
        rw [recKeys_recSet_of_has _ _ _ (by
          rw [recHas_iff_mem, h0]
          exact (anyKey_iff_mem schema _).mp hany), h0]
      · exact h0
  exact recKeys_llmMerge cfg.llm soup schema _ hc h1

theorem mem_extract_from_elements_m (cfg : ScraperCfg) (elements : List Html)
    (schema : Schema) (base : String) (hc : CfgOk cfg) :
    ∀ R ∈ extract_from_elements_m cfg elements schema base,
      recKeys R = schemaKeys schema := by
  intro R hR
  unfold extract_from_elements_m at hR
  rw [List.mem_map] at hR
  obtain ⟨el, _, rfl⟩ := hR
  exact recKeys_llmMerge cfg.llm el schema _ hc
    (recKeys_extract_from_element el schema base)

theorem mem_scrape_detail_pages (fetch : Fetch) (cfg : ScraperCfg)
    (urls : List String) (schema : Schema) (hc : CfgOk cfg) :
    ∀ R ∈ scrape_detail_pages fetch cfg urls schema,
      recKeys R = schemaKeys schema := by
  intro R hR
  unfold scrape_detail_pages at hR
  rw [List.mem_filterMap] at hR
  obtain ⟨url, _, hsome⟩ := hR
  cases hf : fetch url with
  | none => rw [hf] at hsome; exact absurd hsome (by simp)
  | some soup =>
    rw [hf] at hsome
    have hsome2 :
        (if (extract_from_detail_page cfg soup schema url).isEmpty = true then
          none
        else some (extract_from_detail_page cfg soup schema url)) = some R :=
      hsome
    split at hsome2
    · exact absurd hsome2 (by simp)
    · rw [Option.some.injEq] at hsome2
      rw [← hsome2]
      exact recKeys_extract_from_detail_page cfg soup schema url hc

theorem mem_extract_from_listing_page (fetch : Fetch) (cfg : ScraperCfg)
    (soup : Html) (schema : Schema) (page_url : String) (hc : CfgOk cfg) :
    ∀ R ∈ extract_from_listing_page fetch cfg soup schema page_url,
      recKeys R = schemaKeys schema := by
  intro R hR
  simp only [extract_from_listing_page] at hR
  split at hR
  · exact absurd hR (by simp)
  · split at hR
    · exact mem_scrape_detail_pages fetch cfg _ schema hc R hR
    · exact mem_extract_from_elements_m cfg _ schema page_url hc R hR

theorem mem_pagesLoop (fetch : Fetch) (cfg : ScraperCfg) (schema : Schema)
    (base_url : String) (initial : Html) (urls : List String) (idx : Nat)
    (hc : CfgOk cfg) :
    ∀ R ∈ pagesLoop fetch cfg schema base_url initial urls idx,
      recKeys R = schemaKeys schema := by
  induction urls generalizing idx with
  | nil => intro R hR; exact absurd hR (by simp [pagesLoop])
  | cons u rest ih =>
    intro R hR
    simp only [pagesLoop] at hR
    split at hR
    · split at hR
      · exact mem_extract_from_listing_page fetch cfg initial schema u hc R hR
      · rw [List.mem_append] at hR
        rcases hR with hR | hR
        · exact mem_extract_from_listing_page fetch cfg initial schema u hc R hR
        · exact ih (idx + 1) R hR
    · cases hf : fetch u with
      | none =>
        rw [hf] at hR
        exact ih (idx + 1) R hR
      | some soup =>
        rw [hf] at hR
        have hR2 : R ∈
            (if (extract_from_listing_page fetch cfg soup schema u).isEmpty
                && idx > 1 then
              extract_from_listing_page fetch cfg soup schema u
            else
              extract_from_listing_page fetch cfg soup schema u ++
                pagesLoop fetch cfg schema base_url initial rest (idx + 1)) := hR
        split at hR2
        · exact mem_extract_from_listing_page fetch cfg soup schema u hc R hR2
        · rw [List.mem_append] at hR2
          rcases hR2 with hR2 | hR2
          · exact mem_extract_from_listing_page fetch cfg soup schema u hc R hR2
          · exact ih (idx + 1) R hR2

theorem recKeys_foldl_addCellValue (pairs : List (Nat × String)) (r : Rec)
    (e : Nat × String → Option String) :
    recKeys (pairs.foldl (fun acc p => addCellValue acc p.2 (e p)) r) ⊆
      recKeys r ++ pairs.map Prod.snd := by
  induction pairs generalizing r with
  | nil => simp
  | cons p rest ih =>
    rw [List.foldl_cons]
    intro k hk
    have h1 := ih (addCellValue r p.2 (e p)) hk
    rw [List.mem_append] at h1
    rcases h1 with h1 | h1
    · have h2 : k ∈ recKeys r ++ [p.2] := by
        refine ?_
        have : recKeys (addCellValue r p.2 (e p)) ⊆ recKeys r ++ [p.2] := by
          unfold addCellValue
          split
          · split
            · show recKeys (if strContains (((recGet r p.2).join).getD "")
                    ((e p).getD "") = true then r
                  else recSet r p.2 (some ((((recGet r p.2).join).getD "") ++
                    " " ++ ((e p).getD "")))) ⊆ recKeys r ++ [p.2]
              split
              · exact List.subset_append_left _ _
              · exact recKeys_recSet_sub r p.2 _
            · exact recKeys_recSet_sub r p.2 _
          · exact List.subset_append_left _ _
        exact this h1
      rw [List.mem_append] at h2
      rcases h2 with h2 | h2
      · simp [h2]
      · simp at h2
        simp [h2]
    · simp [h1]

theorem acceptedPairs_snd_sub (headers : List String) (schema : Schema)
    (n : Nat) :
    (acceptedPairs headers schema n).map Prod.snd ⊆ schemaKeys schema := by
  intro k hk
  unfold acceptedPairs at hk
  rw [List.mem_map] at hk
  obtain ⟨p, hp, rfl⟩ := hk
  rw [List.mem_flatten] at hp
  obtain ⟨grp, hgrp, hpg⟩ := hp
  rw [List.mem_map] at hgrp
  obtain ⟨hi, _, rfl⟩ := hgrp
  rw [List.mem_filterMap] at hpg
  obtain ⟨kv, hkv, hsome⟩ := hpg
  unfold schemaKeys
  rw [List.mem_map]
  refine ⟨kv, hkv, ?_⟩
  by_cases hs : headerFieldScore hi.1 kv.1 > 50
  · rw [if_pos hs] at hsome
    rw [Option.some.injEq] at hsome
    rw [← hsome]
  · rw [if_neg hs] at hsome
    exact absurd hsome (by simp)

theorem recKeys_fillMissing (r : Rec) (schema : Schema) (k : String) :
    k ∈ recKeys (fillMissing r schema) ↔ k ∈ recKeys r ∨ k ∈ schemaKeys schema := by
  unfold fillMissing
  induction schema generalizing r with
  | nil => simp [schemaKeys]
  | cons kv rest ih =>
    rw [List.foldl_cons]
    by_cases hh : recHas r kv.1 = true
    · rw [if_pos hh, ih]
      have hmem := (recHas_iff_mem r kv.1).mp hh
      unfold schemaKeys
      rw [List.map_cons, List.mem_cons]
      constructor
      · rintro (h | h)
        · exact Or.inl h
        · exact Or.inr (Or.inr h)
      · rintro (h | h | h)
        · exact Or.inl h
        · exact Or.inl (h ▸ hmem)
        · exact Or.inr h
    · rw [if_neg hh, ih, recKeys_append]
      simp [schemaKeys, recKeys, or_assoc]

theorem mem_recKeys_with_headers (row : Html) (schema : Schema) (base : String)
    (headers : List String) (k : String) :
    k ∈ recKeys (extract_from_table_row_with_headers row schema base headers) ↔
      k ∈ schemaKeys schema := by
  simp only [extract_from_table_row_with_headers]
  split
  · rw [recKeys_extract_from_table_row]
  · rw [recKeys_fillMissing]
    constructor
    · rintro (h | h)
      · have h2 := recKeys_foldl_addCellValue _ [] _ h
        rw [show recKeys [] = ([] : List String) from rfl,
          List.nil_append] at h2
        exact acceptedPairs_snd_sub headers schema _ h2
      · exact h
    · exact Or.inr

/-- C1: every record the pipeline produces — listing-element extraction,
table-row extraction (with and without headers), detail-page extraction, and
the enrichment merge — has key set exactly the field schema's key set,
provided the enrichment collaborator honours its interface of answering only
the requested fields. -/
theorem c1_record_keys_equal_schema :
    (∀ (fetch : Fetch) (cfg : ScraperCfg) (url : String) (schema : Schema),
      CfgOk cfg → ∀ R ∈ scrape fetch cfg url schema,
        ∀ k, k ∈ recKeys R ↔ k ∈ schemaKeys schema) ∧
    (∀ (row : Html) (schema : Schema) (base : String) (headers : List String)
        (k : String),
      k ∈ recKeys (extract_from_table_row_with_headers row schema base headers) ↔
        k ∈ schemaKeys schema) := by
  constructor
  · intro fetch cfg url schema hc R hR k
    have : recKeys R = schemaKeys schema := by
      cases hf : fetch url with
      | none =>
        rw [scrape_eq_none fetch cfg url schema hf] at hR
        exact absurd hR (by simp)
      | some soup =>
        cases hd : detect_detail_page_type soup with
        | detail =>
          rw [scrape_eq_detail fetch cfg url schema soup hf hd] at hR
          rw [List.mem_singleton] at hR
          rw [hR]
          exact recKeys_extract_from_detail_page cfg soup schema url hc
        | listing =>
          rw [scrape_eq_listing fetch cfg url schema soup hf hd] at hR
          unfold scrape_listing_pages at hR
          exact mem_pagesLoop fetch cfg schema url soup _ 1 hc R hR
    rw [this]
  · exact fun row schema base headers k =>
      mem_recKeys_with_headers row schema base headers k

/-- null-answering enrichment oracle: responds to each requested field with
null, as the unconfigured client does. -/
def oracleNull : Enrich := fun _ req => req.map (fun kv => (kv.1, none))

def cfgC1 : ScraperCfg := ⟨some oracleNull, 100⟩

def fetchC1 : Fetch := fun _ =>
  some (He "html" [] [] [He "body" [] [] [He "h1" [] [] [.text "Pat Smith"]]])

theorem cfgC1_ok : CfgOk cfgC1 := by
  intro o ho doc req
  have ho2 : some oracleNull = some o := ho
  have ho3 : o = oracleNull := (Option.some.inj ho2).symm
  rw [ho3]
  unfold oracleNull
  rw [recKeys_schemaMap req (fun _ => none)]
  exact List.Subset.refl _

/-- C1 witness: the schema key is a key of the record a concrete scrape run
returns (with an enrichment oracle configured). -/
theorem c1_record_keys_equal_schema_witness :
    "name" ∈ recKeys
      ((scrape fetchC1 cfgC1 "http://e.com/p" [("name", "full name")]).headD []) :=
  ((c1_record_keys_equal_schema.1 fetchC1 cfgC1 "http://e.com/p"
      [("name", "full name")] cfgC1_ok
      ((scrape fetchC1 cfgC1 "http://e.com/p" [("name", "full name")]).headD [])
      (by decide)) "name").mpr (by decide)

/-! ### C3: pagination detection and page-URL expansion

The query-string codec (`splitSep`/`joinSep`, `parseTok`, `groupPairs`,
`encodePairs`) satisfies a parse/encode roundtrip on well-formed parameter
lists, which yields an exact description of `update_url_params`. -/

theorem splitSep_ne_nil (c : Char) (l : List Char) : splitSep c l ≠ [] := by
  cases l with
  | nil => simp [splitSep]
  | cons x xs =>
    unfold splitSep
    split
    · simp
    · split <;> simp

theorem mem_splitSep_not_mem (c : Char) (l : List Char) :
    ∀ p ∈ splitSep c l, c ∉ p := by
  induction l with
  | nil =>
    intro p hp
    simp [splitSep] at hp
    simp [hp]
  | cons x xs ih =>
    intro p hp
    unfold splitSep at hp
    by_cases hx : x = c
    · rw [if_pos hx] at hp
      rcases List.mem_cons.mp hp with h | h
      · simp [h]
      · exact ih p h
    · rw [if_neg hx] at hp
      cases hs : splitSep c xs with
      | nil => exact absurd hs (splitSep_ne_nil c xs)
      | cons h t =>
        rw [hs] at hp
        rcases List.mem_cons.mp hp with hm | hm
        · subst hm
          intro hcm
          rcases List.mem_cons.mp hcm with h1 | h1
          · exact hx h1.symm
          · exact ih h (hs ▸ List.mem_cons_self h t) h1
        · exact ih p (hs ▸ List.mem_cons_of_mem h hm)

theorem joinSep_splitSep (c : Char) (l : List Char) :
    joinSep c (splitSep c l) = l := by
  induction l with
  | nil => rfl
  | cons x xs ih =>
    unfold splitSep
    by_cases hx : x = c
    · rw [if_pos hx]
      cases hs : splitSep c xs with
      | nil => exact absurd hs (splitSep_ne_nil c xs)
      | cons h t =>
        show [] ++ c :: joinSep c (h :: t) = x :: xs
        rw [← hs, ih, hx]
        rfl
    · rw [if_neg hx]
      cases hs : splitSep c xs with
      | nil => exact absurd hs (splitSep_ne_nil c xs)
      | cons h t =>
        cases t with
        | nil =>
          show x :: h = x :: xs
          have : joinSep c [h] = xs := hs ▸ ih
          simpa [joinSep] using this
        | cons q t2 =>
          show (x :: h) ++ c :: joinSep c (q :: t2) = x :: xs
          have : (h ++ c :: joinSep c (q :: t2)) = xs := by
            have := hs ▸ ih
            simpa [joinSep] using this
          simp [← this]

theorem splitSep_append_cons (c : Char) (p : List Char) (rest : List Char)
    (hp : c ∉ p) : splitSep c (p ++ c :: rest) = p :: splitSep c rest := by
  induction p with
  | nil => simp [splitSep]
  | cons x xs ih =>
    have hx : x ≠ c := fun h => hp (h ▸ List.mem_cons_self x xs)
    have hxs : c ∉ xs := fun h => hp (List.mem_cons_of_mem x h)
    show splitSep c (x :: (xs ++ c :: rest)) = (x :: xs) :: splitSep c rest
    conv_lhs => rw [splitSep]
    rw [if_neg hx, ih hxs]

theorem splitSep_no_sep (c : Char) (l : List Char) (hl : c ∉ l) :
    splitSep c l = [l] := by
  induction l with
  | nil => rfl
  | cons x xs ih =>
    have hx : x ≠ c := fun h => hl (h ▸ List.mem_cons_self x xs)
    have hxs : c ∉ xs := fun h => hl (List.mem_cons_of_mem x h)
    unfold splitSep
    rw [if_neg hx, ih hxs]

theorem takeWhile_until_sep (c : Char) (pre rest : List Char) (hp : c ∉ pre) :
    (pre ++ c :: rest).takeWhile (· ≠ c) = pre := by
  induction pre with
  | nil => simp [List.takeWhile_cons]
  | cons x xs ih =>
    have hx : x ≠ c := fun h => hp (h ▸ List.mem_cons_self x xs)
    have hxs : c ∉ xs := fun h => hp (List.mem_cons_of_mem x h)
    simp only [List.cons_append, List.takeWhile_cons]
    rw [if_pos (by simpa using hx), ih hxs]

theorem dropWhile_until_sep (c : Char) (pre rest : List Char) (hp : c ∉ pre) :
    (pre ++ c :: rest).dropWhile (· ≠ c) = c :: rest := by
  induction pre with
  | nil => simp [List.dropWhile_cons]
  | cons x xs ih =>
    have hx : x ≠ c := fun h => hp (h ▸ List.mem_cons_self x xs)
    have hxs : c ∉ xs := fun h => hp (List.mem_cons_of_mem x h)
    simp only [List.cons_append, List.dropWhile_cons]
    rw [if_pos (by simpa using hx), ih hxs]

theorem takeWhile_no_sep (c : Char) (l : List Char) (hl : c ∉ l) :
    l.takeWhile (· ≠ c) = l := by
  induction l with
  | nil => rfl
  | cons x xs ih =>
    have hx : x ≠ c := fun h => hl (h ▸ List.mem_cons_self x xs)
    have hxs : c ∉ xs := fun h => hl (List.mem_cons_of_mem x h)
    rw [List.takeWhile_cons, if_pos (by simpa using hx), ih hxs]

theorem dropWhile_no_sep (c : Char) (l : List Char) (hl : c ∉ l) :
    l.dropWhile (· ≠ c) = [] := by
  induction l with
  | nil => rfl
  | cons x xs ih =>
    have hx : x ≠ c := fun h => hl (h ▸ List.mem_cons_self x xs)
    have hxs : c ∉ xs := fun h => hl (List.mem_cons_of_mem x h)
    rw [List.dropWhile_cons, if_pos (by simpa using hx), ih hxs]

theorem splitFirst_at_sep (c : Char) (pre rest : List Char) (hp : c ∉ pre) :
    splitFirst c (pre ++ c :: rest) = (pre, some rest) := by
  simp only [splitFirst]
  rw [takeWhile_until_sep c pre rest hp, dropWhile_until_sep c pre rest hp]

theorem splitFirst_no_sep (c : Char) (l : List Char) (hl : c ∉ l) :
    splitFirst c l = (l, none) := by
  simp only [splitFirst]
  rw [takeWhile_no_sep c l hl, dropWhile_no_sep c l hl]

theorem splitSep_joinSep (c : Char) (ps : List (List Char)) (hne : ps ≠ [])
    (hfree : ∀ p ∈ ps, c ∉ p) :
    splitSep c (joinSep c ps) = ps := by
  induction ps with
  | nil => exact absurd rfl hne
  | cons p t ih =>
    cases t with
    | nil =>
      show splitSep c (joinSep c [p]) = [p]
      simp only [joinSep]
      exact splitSep_no_sep c p (hfree p (List.mem_cons_self p []))
    | cons q t2 =>
      show splitSep c (p ++ c :: joinSep c (q :: t2)) = p :: q :: t2
      rw [splitSep_append_cons c p _ (hfree p (List.mem_cons_self p _)),
        ih (by simp) (fun r hr => hfree r (List.mem_cons_of_mem p hr))]

theorem strData_append (a b : String) : (a ++ b).data = a.data ++ b.data := rfl

theorem urlsplitLite_proj (url : String) :
    urlsplitLite url =
      (String.mk (splitFirst '?' (splitFirst '#' url.data).1).1,
       String.mk ((splitFirst '?' (splitFirst '#' url.data).1).2.getD []),
       String.mk ((splitFirst '#' url.data).2.getD [])) := rfl

theorem urlunsplit_data (pre q frag : String) (hq : q ≠ "") :
    (urlunsplitLite pre q frag).data =
      pre.data ++ '?' :: q.data ++
        (if frag = "" then [] else '#' :: frag.data) := by
  unfold urlunsplitLite
  rw [if_neg hq]
  by_cases hf : frag = ""
  · rw [if_pos hf, if_pos hf, strData_append, strData_append, strData_append]
    simp
  · rw [if_neg hf, if_neg hf, strData_append, strData_append, strData_append,
      strData_append]
    simp

/-- re-splitting an unsplit URL recovers the components, provided the prefix
holds no `?`/`#`, and the query is non-empty and `#`-free. -/
theorem urlsplit_unsplit (pre q frag : String) (hpq : '?' ∉ pre.data)
    (hph : '#' ∉ pre.data) (hqh : '#' ∉ q.data) (hq : q ≠ "") :
    urlsplitLite (urlunsplitLite pre q frag) = (pre, q, frag) := by
  rw [urlsplitLite_proj, urlunsplit_data pre q frag hq]
  by_cases hf : frag = ""
  · rw [if_pos hf]
    have h1 : splitFirst '#' (pre.data ++ '?' :: q.data ++ []) =
        (pre.data ++ '?' :: q.data ++ [], none) := by
      refine splitFirst_no_sep '#' _ ?_
      intro hc
      simp only [List.append_nil, List.mem_append, List.mem_cons] at hc
      rcases hc with h | h | h
      · exact hph h
      · exact absurd h (by decide)
      · exact hqh h
    rw [h1]
    have h2 : splitFirst '?' (pre.data ++ '?' :: q.data ++ []) =
        (pre.data, some (q.data ++ [])) := by
      rw [List.append_assoc]
      exact splitFirst_at_sep '?' pre.data (q.data ++ []) hpq
    simp only []
    rw [h2]
    simp only [Option.getD_some, Option.getD_none, List.append_nil]
    rw [hf]
  · rw [if_neg hf]
    have h1 : splitFirst '#' (pre.data ++ '?' :: q.data ++ '#' :: frag.data) =
        (pre.data ++ '?' :: q.data, some frag.data) := by
      have : pre.data ++ '?' :: q.data ++ '#' :: frag.data =
          (pre.data ++ '?' :: q.data) ++ '#' :: frag.data := by
        simp
      rw [this]
      refine splitFirst_at_sep '#' _ _ ?_
      intro hc
      simp only [List.mem_append, List.mem_cons] at hc
      rcases hc with h | h | h
      · exact hph h
      · exact absurd h (by decide)
      · exact hqh h
    rw [h1]
    have h2 : splitFirst '?' (pre.data ++ '?' :: q.data) =
        (pre.data, some q.data) :=
      splitFirst_at_sep '?' pre.data q.data hpq
    simp only []
    rw [h2]
    simp only [Option.getD_some]

/-- well-formedness of one parsed `k=v` pair: what `parse_qsl` guarantees for
tokens cut from a fragment-free query string. -/
def PairWF (kv : String × String) : Prop :=
  '&' ∉ kv.1.data ∧ '=' ∉ kv.1.data ∧ '#' ∉ kv.1.data ∧
  '&' ∉ kv.2.data ∧ '#' ∉ kv.2.data ∧ kv.2 ≠ ""

/-- well-formedness of one `parse_qs` dict entry. -/
def GroupWF (e : String × List String) : Prop :=
  '&' ∉ e.1.data ∧ '=' ∉ e.1.data ∧ '#' ∉ e.1.data ∧ e.2 ≠ [] ∧
  ∀ v ∈ e.2, '&' ∉ v.data ∧ '#' ∉ v.data ∧ v ≠ ""

/-- well-formedness of a `parse_qs` result: distinct keys, well-formed
entries. -/
def GroupsWF (g : List (String × List String)) : Prop :=
  (g.map Prod.fst).Nodup ∧ ∀ e ∈ g, GroupWF e

theorem strData_ne_nil (v : String) (hv : v ≠ "") : v.data ≠ [] := by
  intro h
  apply hv
  cases v with
  | mk d =>
    simp at h
    subst h
    rfl

theorem parseTok_encode (k v : String) (hk : '=' ∉ k.data) (hv : v ≠ "") :
    parseTok (k.data ++ '=' :: v.data) = some (k, v) := by
  simp only [parseTok]
  rw [takeWhile_until_sep '=' k.data v.data hk,
    dropWhile_until_sep '=' k.data v.data hk]
  simp only []
  rw [if_neg (strData_ne_nil v hv)]

theorem filterMap_parseTok_encode (ps : List (String × String))
    (hwf : ∀ p ∈ ps, '=' ∉ p.1.data ∧ p.2 ≠ "") :
    ps.filterMap (parseTok ∘ fun kv => kv.1.data ++ '=' :: kv.2.data) = ps := by
  induction ps with
  | nil => rfl
  | cons q t ih =>
    obtain ⟨h2, h4⟩ := hwf q (List.mem_cons_self q t)
    rw [List.filterMap_cons]
    simp only [Function.comp_apply]
    rw [parseTok_encode q.1 q.2 h2 h4,
      ih (fun r hr => hwf r (List.mem_cons_of_mem q hr))]

theorem parsePairs_encodePairs (ps : List (String × String))
    (hwf : ∀ p ∈ ps, '&' ∉ p.1.data ∧ '=' ∉ p.1.data ∧ '&' ∉ p.2.data ∧
      p.2 ≠ "") :
    parsePairs (encodePairs ps) = ps := by
  cases hps : ps with
  | nil => rfl
  | cons p0 t0 =>
    rw [← hps]
    have hpsne : ps ≠ [] := by rw [hps]; simp
    show (splitSep '&' (joinSep '&'
        (ps.map fun kv => kv.1.data ++ '=' :: kv.2.data))).filterMap parseTok = ps
    rw [splitSep_joinSep '&' _ (by simpa using hpsne) ?hfree]
    case hfree =>
      intro tok htok
      rw [List.mem_map] at htok
      obtain ⟨kv, hkv, rfl⟩ := htok
      obtain ⟨h1, _, h3, _⟩ := hwf kv hkv
      intro hc
      rcases List.mem_append.mp hc with h | h
      · exact h1 h
      · rcases List.mem_cons.mp h with h | h
        · exact absurd h (by decide)
        · exact h3 h
    rw [List.filterMap_map]
    exact filterMap_parseTok_encode ps
      (fun p hp => ⟨(hwf p hp).2.1, (hwf p hp).2.2.2⟩)

theorem mem_joinSep_of_mem (c : Char) (ps : List (List Char)) (p : List Char)
    (a : Char) (hp : p ∈ ps) (ha : a ∈ p) : a ∈ joinSep c ps := by
  induction ps with
  | nil => exact absurd hp (by simp)
  | cons q t ih =>
    cases t with
    | nil =>
      rw [List.mem_singleton] at hp
      subst hp
      exact ha
    | cons r t2 =>
      show a ∈ q ++ c :: joinSep c (r :: t2)
      rcases List.mem_cons.mp hp with h | h
      · subst h
        exact List.mem_append_left _ ha
      · exact List.mem_append_right _ (List.mem_cons_of_mem c (ih h))

theorem mem_joinSep_cases (c : Char) (ps : List (List Char)) (a : Char)
    (h : a ∈ joinSep c ps) : a = c ∨ ∃ p ∈ ps, a ∈ p := by
  induction ps with
  | nil => exact absurd h (by simp [joinSep])
  | cons q t ih =>
    cases t with
    | nil =>
      exact Or.inr ⟨q, by simp, h⟩
    | cons r t2 =>
      rw [show joinSep c (q :: r :: t2) = q ++ c :: joinSep c (r :: t2) from rfl,
        List.mem_append, List.mem_cons] at h
      rcases h with h | h | h
      · exact Or.inr ⟨q, by simp, h⟩
      · exact Or.inl h
      · rcases ih h with h2 | ⟨p, hp, hap⟩
        · exact Or.inl h2
        · exact Or.inr ⟨p, List.mem_cons_of_mem q hp, hap⟩

theorem mem_splitSep_sub (c : Char) (l : List Char) (p : List Char) (a : Char)
    (hp : p ∈ splitSep c l) (ha : a ∈ p) : a ∈ l :=
  joinSep_splitSep c l ▸ mem_joinSep_of_mem c (splitSep c l) p a hp ha

theorem mkString_ne_empty (l : List Char) (h : l ≠ []) : String.mk l ≠ "" :=
  fun hc => h (congrArg String.data hc)

theorem map_keys_set (acc : List (String × List String)) (k : String)
    (v : String) :
    ((acc.map (fun e => if e.1 == k then (k, [v]) else e)).map Prod.fst) =
      acc.map Prod.fst := by
  induction acc with
  | nil => rfl
  | cons e t ih =>
    simp only [List.map_cons]
    rw [ih]
    by_cases hb : (e.1 == k) = true
    · rw [if_pos hb]
      have : e.1 = k := by simpa using hb
      rw [this]
    · rw [if_neg hb]

theorem map_keys_grow (acc : List (String × List String)) (k : String)
    (w : String) :
    ((acc.map (fun e => if e.1 == k then (e.1, e.2 ++ [w]) else e)).map
      Prod.fst) = acc.map Prod.fst := by
  induction acc with
  | nil => rfl
  | cons e t ih =>
    simp only [List.map_cons]
    rw [ih]
    by_cases hb : (e.1 == k) = true
    · rw [if_pos hb]
    · rw [if_neg hb]

theorem addPair_new (acc : List (String × List String)) (kv : String × String)
    (hk : kv.1 ∉ acc.map Prod.fst) :
    addPair acc kv = acc ++ [(kv.1, [kv.2])] := by
  unfold addPair
  rw [if_neg (fun h => hk ((anyKey_iff_mem acc kv.1).mp h))]

theorem map_update_append_last (acc₁ : List (String × List String))
    (k : String) (u : List String) (w : String)
    (hk : k ∉ acc₁.map Prod.fst) :
    ((acc₁ ++ [(k, u)]).map
        (fun e => if e.1 == k then (e.1, e.2 ++ [w]) else e)) =
      acc₁ ++ [(k, u ++ [w])] := by
  induction acc₁ with
  | nil => simp
  | cons e t ih =>
    have hk1 : ¬ k = e.1 := fun h => hk (by simp [h])
    have hk2 : k ∉ t.map Prod.fst := fun h => hk (by simp [h])
    have he : ¬ (e.1 == k) = true := by
      simp only [beq_iff_eq]
      exact fun h => hk1 h.symm
    simp only [List.cons_append, List.map_cons]
    rw [if_neg he, ih hk2]

theorem addPair_grow (acc₁ : List (String × List String)) (k : String)
    (u : List String) (w : String) (hk : k ∉ acc₁.map Prod.fst) :
    addPair (acc₁ ++ [(k, u)]) (k, w) = acc₁ ++ [(k, u ++ [w])] := by
  unfold addPair
  rw [if_pos (by simp), map_update_append_last acc₁ k u w hk]

theorem foldl_addPair_same_key (acc₁ : List (String × List String))
    (k : String) (u : List String) (vs : List String)
    (hk : k ∉ acc₁.map Prod.fst) :
    List.foldl addPair (acc₁ ++ [(k, u)]) (vs.map (fun v => (k, v))) =
      acc₁ ++ [(k, u ++ vs)] := by
  induction vs generalizing u with
  | nil => simp
  | cons v vs ih =>
    rw [List.map_cons, List.foldl_cons, addPair_grow acc₁ k u v hk, ih (u ++ [v])]
    simp

theorem foldl_addPair_group (acc : List (String × List String)) (k : String)
    (vs : List String) (hk : k ∉ acc.map Prod.fst) (hvs : vs ≠ []) :
    List.foldl addPair acc (vs.map (fun v => (k, v))) = acc ++ [(k, vs)] := by
  cases vs with
  | nil => exact absurd rfl hvs
  | cons v vs =>
    rw [List.map_cons, List.foldl_cons, addPair_new acc (k, v) hk,
      foldl_addPair_same_key acc k [v] vs hk]
    simp

theorem flattenGroups_cons (e : String × List String)
    (g : List (String × List String)) :
    flattenGroups (e :: g) =
      e.2.map (fun v => (e.1, v)) ++ flattenGroups g := by
  simp [flattenGroups]

theorem foldl_addPair_flatten (g : List (String × List String))
    (acc : List (String × List String))
    (hdisj : ∀ kk ∈ g.map Prod.fst, kk ∉ acc.map Prod.fst)
    (hnd : (g.map Prod.fst).Nodup)
    (hne : ∀ e ∈ g, e.2 ≠ []) :
    List.foldl addPair acc (flattenGroups g) = acc ++ g := by
  induction g generalizing acc with
  | nil => simp [flattenGroups]
  | cons e g ih =>
    rw [flattenGroups_cons, List.foldl_append,
      foldl_addPair_group acc e.1 e.2 (hdisj e.1 (by simp)) (hne e (by simp))]
    rw [List.map_cons] at hnd
    have hnd2 := List.nodup_cons.mp hnd
    rw [ih (acc ++ [(e.1, e.2)]) ?hd ?hn ?he]
    case hd =>
      intro kk hkk
      rw [List.map_append, List.mem_append]
      rintro (h | h)
      · exact hdisj kk (List.mem_cons_of_mem e.1 hkk) h
      · simp at h
        exact hnd2.1 (h ▸ hkk)
    case hn => exact hnd2.2
    case he => exact fun e2 he2 => hne e2 (List.mem_cons_of_mem e he2)
    simp

theorem groupPairs_flattenGroups (g : List (String × List String))
    (hwf : GroupsWF g) : groupPairs (flattenGroups g) = g := by
  unfold groupPairs
  rw [foldl_addPair_flatten g [] (by simp) hwf.1
    (fun e he => (hwf.2 e he).2.2.2.1)]
  simp

theorem mem_of_mem_takeWhile {p : Char → Bool} {l : List Char} {a : Char}
    (h : a ∈ l.takeWhile p) : a ∈ l :=
  (List.takeWhile_sublist p).subset h

theorem mem_of_mem_dropWhile {p : Char → Bool} {l : List Char} {a : Char}
    (h : a ∈ l.dropWhile p) : a ∈ l :=
  (List.dropWhile_sublist p).subset h

theorem pred_of_mem_takeWhile {p : Char → Bool} {l : List Char} {a : Char}
    (h : a ∈ l.takeWhile p) : p a = true := by
  induction l with
  | nil => exact absurd h (by simp)
  | cons x xs ih =>
    rw [List.takeWhile_cons] at h
    by_cases hx : p x = true
    · rw [if_pos hx] at h
      rcases List.mem_cons.mp h with h | h
      · exact h ▸ hx
      · exact ih h
    · rw [if_neg hx] at h
      exact absurd h (by simp)

theorem parseTok_wf (tok : List Char) (kv : String × String)
    (h : parseTok tok = some kv) (ha : '&' ∉ tok) (hh : '#' ∉ tok) :
    PairWF kv := by
  simp only [parseTok] at h
  cases hd : tok.dropWhile (· ≠ '=') with
  | nil =>
    rw [hd] at h
    exact absurd h (by simp)
  | cons x v =>
    rw [hd] at h
    simp only [] at h
    by_cases hv : v = []
    · rw [if_pos hv] at h
      exact absurd h (by simp)
    · rw [if_neg hv] at h
      rw [Option.some.injEq] at h
      subst h
      have hvsub : ∀ a ∈ v, a ∈ tok := by
        intro a hav
        exact mem_of_mem_dropWhile (hd ▸ List.mem_cons_of_mem x hav)
      have hksub : ∀ a ∈ tok.takeWhile (· ≠ '='), a ∈ tok :=
        fun a hak => mem_of_mem_takeWhile hak
      refine ⟨fun hc => ha (hksub _ hc), ?_, fun hc => hh (hksub _ hc),
        fun hc => ha (hvsub _ hc), fun hc => hh (hvsub _ hc),
        mkString_ne_empty v hv⟩
      intro hc
      have := pred_of_mem_takeWhile hc
      simp at this

theorem parsePairs_wf (q : String) (hq : '#' ∉ q.data) :
    ∀ kv ∈ parsePairs q, PairWF kv := by
  intro kv hkv
  unfold parsePairs at hkv
  rw [List.mem_filterMap] at hkv
  obtain ⟨tok, htok, hp⟩ := hkv
  refine parseTok_wf tok kv hp (mem_splitSep_not_mem '&' q.data tok htok) ?_
  intro hc
  exact hq (mem_splitSep_sub '&' q.data tok '#' htok hc)

theorem addPair_wf (acc : List (String × List String)) (kv : String × String)
    (hacc : GroupsWF acc) (hkv : PairWF kv) : GroupsWF (addPair acc kv) := by
  unfold addPair
  split
  · refine ⟨?_, ?_⟩
    · rw [map_keys_grow acc kv.1 kv.2]
      exact hacc.1
    · intro e he
      rw [List.mem_map] at he
      obtain ⟨e0, he0, rfl⟩ := he
      have h0 := hacc.2 e0 he0
      by_cases hb : (e0.1 == kv.1) = true
      · rw [if_pos hb]
        refine ⟨h0.1, h0.2.1, h0.2.2.1, by simp, ?_⟩
        intro v hv
        rcases List.mem_append.mp hv with h | h
        · exact h0.2.2.2.2 v h
        · rw [List.mem_singleton] at h
          subst h
          exact ⟨hkv.2.2.2.1, hkv.2.2.2.2.1, hkv.2.2.2.2.2⟩
      · rw [if_neg hb]
        exact h0
  · rename_i hany
    have hk : kv.1 ∉ acc.map Prod.fst :=
      fun h => hany ((anyKey_iff_mem acc kv.1).mpr h)
    refine ⟨?_, ?_⟩
    · rw [List.map_append]
      refine List.Nodup.append hacc.1 (by simp) ?_
      intro x hx hx2
      simp at hx2
      subst hx2
      exact hk hx
    · intro e he
      rcases List.mem_append.mp he with h | h
      · exact hacc.2 e h
      · rw [List.mem_singleton] at h
        subst h
        refine ⟨hkv.1, hkv.2.1, hkv.2.2.1, by simp, ?_⟩
        intro v hv
        rw [List.mem_singleton] at hv
        subst hv
        exact ⟨hkv.2.2.2.1, hkv.2.2.2.2.1, hkv.2.2.2.2.2⟩

theorem foldl_addPair_wf (ps : List (String × String))
    (acc : List (String × List String)) (hacc : GroupsWF acc)
    (hps : ∀ kv ∈ ps, PairWF kv) : GroupsWF (ps.foldl addPair acc) := by
  induction ps generalizing acc with
  | nil => exact hacc
  | cons p t ih =>
    rw [List.foldl_cons]
    exact ih (addPair acc p)
      (addPair_wf acc p hacc (hps p (List.mem_cons_self p t)))
      (fun r hr => hps r (List.mem_cons_of_mem p hr))

theorem parseQs_wf (q : String) (hq : '#' ∉ q.data) : GroupsWF (parseQs q) :=
  foldl_addPair_wf (parsePairs q) [] ⟨by simp, by simp⟩ (parsePairs_wf q hq)

theorem mem_flattenGroups (g : List (String × List String))
    (p : String × String) (h : p ∈ flattenGroups g) :
    ∃ e ∈ g, p.1 = e.1 ∧ p.2 ∈ e.2 := by
  unfold flattenGroups at h
  rw [List.mem_flatten] at h
  obtain ⟨l, hl, hp⟩ := h
  rw [List.mem_map] at hl
  obtain ⟨e, he, rfl⟩ := hl
  rw [List.mem_map] at hp
  obtain ⟨v, hv, rfl⟩ := hp
  exact ⟨e, he, rfl, hv⟩

theorem flattenGroups_wf (g : List (String × List String))
    (hwf : GroupsWF g) : ∀ kv ∈ flattenGroups g, PairWF kv := by
  intro kv hkv
  obtain ⟨e, he, h1, h2⟩ := mem_flattenGroups g kv hkv
  have hg := hwf.2 e he
  have hv := hg.2.2.2.2 kv.2 h2
  rw [show kv = (kv.1, kv.2) from rfl, h1]
  exact ⟨hg.1, hg.2.1, hg.2.2.1, hv.1, hv.2.1, hv.2.2⟩

theorem parseQs_encode (g : List (String × List String)) (hwf : GroupsWF g) :
    parseQs (urlencodeGrouped g) = g := by
  show groupPairs (parsePairs (encodePairs (flattenGroups g))) = g
  rw [parsePairs_encodePairs _ (fun p hp =>
    ⟨(flattenGroups_wf g hwf p hp).1, (flattenGroups_wf g hwf p hp).2.1,
     (flattenGroups_wf g hwf p hp).2.2.2.1,
     (flattenGroups_wf g hwf p hp).2.2.2.2.2⟩)]
  exact groupPairs_flattenGroups g hwf

theorem encode_ne_empty (g : List (String × List String)) (hg : g ≠ [])
    (hwf : GroupsWF g) : urlencodeGrouped g ≠ "" := by
  cases g with
  | nil => exact absurd rfl hg
  | cons e rest =>
    cases he2 : e.2 with
    | nil => exact absurd he2 (hwf.2 e (by simp)).2.2.2.1
    | cons v vs =>
      show encodePairs (flattenGroups (e :: rest)) ≠ ""
      rw [flattenGroups_cons, he2, List.map_cons, List.cons_append]
      unfold encodePairs
      rw [List.map_cons]
      apply mkString_ne_empty
      cases h3 : ((vs.map (fun v => (e.1, v)) ++ flattenGroups rest).map
          fun kv => kv.1.data ++ '=' :: kv.2.data) with
      | nil => simp [joinSep]
      | cons t ts => simp [joinSep]

theorem encode_no_hash (g : List (String × List String)) (hwf : GroupsWF g) :
    '#' ∉ (urlencodeGrouped g).data := by
  intro hc
  have hc2 : '#' ∈ joinSep '&'
      ((flattenGroups g).map fun kv => kv.1.data ++ '=' :: kv.2.data) := hc
  rcases mem_joinSep_cases '&' _ '#' hc2 with h | ⟨tok, htok, hmem⟩
  · exact absurd h (by decide)
  · rw [List.mem_map] at htok
    obtain ⟨kv, hkv, rfl⟩ := htok
    have hw := flattenGroups_wf g hwf kv hkv
    rcases List.mem_append.mp hmem with h | h
    · exact hw.2.2.1 h
    · rcases List.mem_cons.mp h with h | h
      · exact absurd h (by decide)
      · exact hw.2.2.2.2.1 h

theorem setGroupKey_ne_nil (g : List (String × List String)) (k v : String) :
    setGroupKey g k v ≠ [] := by
  unfold setGroupKey
  split
  · rename_i hany
    cases g with
    | nil => simp at hany
    | cons e t => simp
  · simp

theorem setGroupKey_wf (g : List (String × List String)) (k v : String)
    (hwf : GroupsWF g) (hk : '&' ∉ k.data ∧ '=' ∉ k.data ∧ '#' ∉ k.data)
    (hv : '&' ∉ v.data ∧ '#' ∉ v.data ∧ v ≠ "") :
    GroupsWF (setGroupKey g k v) := by
  unfold setGroupKey
  split
  · refine ⟨?_, ?_⟩
    · rw [map_keys_set g k v]
      exact hwf.1
    · intro e he
      rw [List.mem_map] at he
      obtain ⟨e0, he0, rfl⟩ := he
      by_cases hb : (e0.1 == k) = true
      · rw [if_pos hb]
        refine ⟨hk.1, hk.2.1, hk.2.2, by simp, ?_⟩
        intro w hw
        rw [List.mem_singleton] at hw
        subst hw
        exact ⟨hv.1, hv.2.1, hv.2.2⟩
      · rw [if_neg hb]
        exact hwf.2 e0 he0
  · rename_i hany
    have hkm : k ∉ g.map Prod.fst := fun h => hany ((anyKey_iff_mem g k).mpr h)
    refine ⟨?_, ?_⟩
    · rw [List.map_append]
      refine List.Nodup.append hwf.1 (by simp) ?_
      intro x hx hx2
      simp at hx2
      subst hx2
      exact hkm hx
    · intro e he
      rcases List.mem_append.mp he with h | h
      · exact hwf.2 e h
      · rw [List.mem_singleton] at h
        subst h
        refine ⟨hk.1, hk.2.1, hk.2.2, by simp, ?_⟩
        intro w hw
        rw [List.mem_singleton] at hw
        subst hw
        exact ⟨hv.1, hv.2.1, hv.2.2⟩

theorem bool_not_true {b : Bool} (h : ¬ b = true) : b = false := by
  cases b
  · rfl
  · exact absurd rfl h

theorem find_map_set_self (g : List (String × List String)) (k v : String)
    (hany : (g.any (fun e => e.1 == k)) = true) :
    (g.map (fun e => if e.1 == k then (k, [v]) else e)).find?
      (fun e => e.1 == k) = some (k, [v]) := by
  induction g with
  | nil => simp at hany
  | cons e t ih =>
    rw [List.map_cons]
    by_cases hb : (e.1 == k) = true
    · rw [if_pos hb]
      simp [List.find?_cons]
    · have hb2 : (e.1 == k) = false := bool_not_true hb
      rw [if_neg hb]
      simp only [List.find?_cons, hb2]
      apply ih
      rw [List.any_cons, hb2, Bool.false_or] at hany
      exact hany

theorem find_append_new_self (g : List (String × List String)) (k v : String)
    (hany : (g.any (fun e => e.1 == k)) = false) :
    ((g ++ [(k, [v])]).find? (fun e => e.1 == k)) = some (k, [v]) := by
  induction g with
  | nil => simp
  | cons e t ih =>
    rw [List.any_cons, Bool.or_eq_false_iff] at hany
    rw [List.cons_append]
    simp only [List.find?_cons, hany.1]
    exact ih hany.2

theorem setGroupKey_find_self (g : List (String × List String))
    (k v : String) :
    ((setGroupKey g k v).find? (fun e => e.1 == k)) = some (k, [v]) := by
  unfold setGroupKey
  by_cases hany : (g.any (fun e => e.1 == k)) = true
  · rw [if_pos hany]
    exact find_map_set_self g k v hany
  · rw [if_neg hany]
    exact find_append_new_self g k v (bool_not_true hany)

theorem find_map_set_other (g : List (String × List String)) (k v k' : String)
    (hne : (k == k') = false) :
    ((g.map (fun e => if e.1 == k then (k, [v]) else e)).find?
      (fun e => e.1 == k')) = g.find? (fun e => e.1 == k') := by
  induction g with
  | nil => rfl
  | cons e t ih =>
    rw [List.map_cons]
    by_cases hb : (e.1 == k) = true
    · have hek : e.1 = k := by simpa using hb
      have h2 : (e.1 == k') = false := by rw [hek]; exact hne
      rw [if_pos hb]
      simp only [List.find?_cons, hne, h2]
      exact ih
    · rw [if_neg hb]
      by_cases hp : (e.1 == k') = true
      · simp only [List.find?_cons, hp]
      · simp only [List.find?_cons, bool_not_true hp]
        exact ih

theorem find_append_new_other (g : List (String × List String))
    (k v k' : String) (hne : (k == k') = false) :
    ((g ++ [(k, [v])]).find? (fun e => e.1 == k')) =
      g.find? (fun e => e.1 == k') := by
  induction g with
  | nil =>
    simp [List.find?_cons, hne]
  | cons e t ih =>
    rw [List.cons_append]
    by_cases hp : (e.1 == k') = true
    · simp only [List.find?_cons, hp]
    · simp only [List.find?_cons, bool_not_true hp]
      exact ih

theorem setGroupKey_find_other (g : List (String × List String))
    (k v k' : String) (hne : (k == k') = false) :
    ((setGroupKey g k v).find? (fun e => e.1 == k')) =
      g.find? (fun e => e.1 == k') := by
  unfold setGroupKey
  split
  · exact find_map_set_other g k v k' hne
  · exact find_append_new_other g k v k' hne

theorem splitFirst_fst (c : Char) (l : List Char) :
    (splitFirst c l).1 = l.takeWhile (· ≠ c) := by
  cases hd : l.dropWhile (· ≠ c) with
  | nil =>
    simp only [splitFirst]
    rw [hd]
  | cons x r =>
    simp only [splitFirst]
    rw [hd]

theorem splitFirst_snd_sub (c : Char) (l : List Char) (a : Char)
    (h : a ∈ (splitFirst c l).2.getD []) : a ∈ l := by
  cases hd : l.dropWhile (· ≠ c) with
  | nil =>
    simp only [splitFirst] at h
    rw [hd] at h
    simp at h
  | cons x r =>
    simp only [splitFirst] at h
    rw [hd] at h
    simp only [Option.getD_some] at h
    exact mem_of_mem_dropWhile (hd ▸ List.mem_cons_of_mem x h)

theorem urlsplit_pre_no_qmark (url : String) :
    '?' ∉ (urlsplitLite url).1.data := by
  rw [urlsplitLite_proj]
  intro hc
  rw [splitFirst_fst] at hc
  exact absurd (pred_of_mem_takeWhile hc) (by simp)

theorem urlsplit_pre_no_hash (url : String) :
    '#' ∉ (urlsplitLite url).1.data := by
  rw [urlsplitLite_proj]
  intro hc
  rw [splitFirst_fst] at hc
  have h2 := mem_of_mem_takeWhile hc
  rw [splitFirst_fst] at h2
  exact absurd (pred_of_mem_takeWhile h2) (by simp)

theorem urlsplit_query_no_hash (url : String) :
    '#' ∉ (urlsplitLite url).2.1.data := by
  rw [urlsplitLite_proj]
  intro hc
  have h2 := splitFirst_snd_sub '?' _ '#' hc
  rw [splitFirst_fst] at h2
  exact absurd (pred_of_mem_takeWhile h2) (by simp)

/-- effect of `update_url_params` on the parsed query parameters: exactly the
dict update `query_params[key] = [str(value)]`, everything else preserved. -/
theorem queryParams_update (url k v : String)
    (hwfk : '&' ∉ k.data ∧ '=' ∉ k.data ∧ '#' ∉ k.data)
    (hwfv : '&' ∉ v.data ∧ '#' ∉ v.data ∧ v ≠ "") :
    queryParams (update_url_params url k v) =
      setGroupKey (queryParams url) k v := by
  have hG : GroupsWF (parseQs (urlsplitLite url).2.1) :=
    parseQs_wf (urlsplitLite url).2.1 (urlsplit_query_no_hash url)
  have hG2 : GroupsWF (setGroupKey (parseQs (urlsplitLite url).2.1) k v) :=
    setGroupKey_wf (parseQs (urlsplitLite url).2.1) k v hG hwfk hwfv
  have hupd : update_url_params url k v =
      urlunsplitLite (urlsplitLite url).1
        (urlencodeGrouped (setGroupKey (parseQs (urlsplitLite url).2.1) k v))
        (urlsplitLite url).2.2 := rfl
  show parseQs (urlsplitLite (update_url_params url k v)).2.1 =
    setGroupKey (queryParams url) k v
  rw [hupd, urlsplit_unsplit _ _ _ (urlsplit_pre_no_qmark url)
    (urlsplit_pre_no_hash url) (encode_no_hash _ hG2)
    (encode_ne_empty _ (setGroupKey_ne_nil _ k v) hG2)]
  exact parseQs_encode _ hG2

theorem detect_pagination_page_param (doc : Html) (url : String)
    (hpage : ((queryParams url).any (fun e => e.1 == "page")) = true)
    (hlm : findLoadMore doc = none) :
    (detect_pagination doc url).has_pagination = true ∧
    (detect_pagination doc url).ptype = some "url_param" ∧
    (detect_pagination doc url).param_name = some "page" := by
  have hfind : (paramNames.find?
      (fun p => (queryParams url).any (fun e => e.1 == p))) = some "page" := by
    show (("page" :: ["p", "pg", "pagenum", "offset", "start", "from"]).find?
        (fun p => (queryParams url).any (fun e => e.1 == p))) = some "page"
    simp only [List.find?_cons, hpage]
  simp only [detect_pagination]
  rw [hlm, hfind]
  cases hnav : findPagContainer doc with
  | none => exact ⟨rfl, rfl, rfl⟩
  | some nav => exact ⟨rfl, rfl, rfl⟩

theorem generate_pages_param (url : String) (info : PagInfo)
    (hhas : info.has_pagination = true)
    (hptype : info.ptype = some "url_param")
    (hparam : info.param_name = some "page")
    (htp : info.total_pages = none) :
    generate_pages url info 5 =
      [url, update_url_params url "page" "2", update_url_params url "page" "3",
       update_url_params url "page" "4", update_url_params url "page" "5"] := by
  unfold generate_pages
  rw [hhas, hptype, hparam, htp]
  rw [if_neg (by simp), if_pos (by decide)]
  rfl

/-- page that offers a "Load More" button. -/
def lmDoc : Html :=
  He "html" [] [] [He "body" [] [] [He "button" [] [] [.text "Load More"]]]

/-- C3 counterexample: on a page with a "Load More" control the mechanism is
overridden to "button" even though the URL carries `page=2`; and the five
URLs emitted for a `page=2` base carry page values 2,2,3,4,5 (the base URL is
emitted unmodified first), not 1,2,3,4,5. -/
theorem c3_counterexample :
    (detect_pagination lmDoc "http://ex.com/dir?page=2").ptype =
      some "button" ∧
    ((generate_pages "http://ex.com/dir?page=2&q=a"
        (detect_pagination emptyDoc "http://ex.com/dir?page=2&q=a") 5).map
      (fun u => ((queryParams u).find? (fun e => e.1 == "page")).map
        Prod.snd)) =
      [some ["2"], some ["2"], some ["3"], some ["4"], some ["5"]] := by
  constructor
  · decide
  · decide

/-- C3 (amended): for every URL whose query string carries a `page` parameter
and every fetched page without a load-more control, detection reports
has-pagination, mechanism URL-parameter, parameter `page`; expanding the plan
with no discovered total-page count and ceiling 5 emits the base URL followed
by the base URL with `page` set to 2,3,4,5; and setting the `page` parameter
replaces its value and preserves every other parameter of the base URL. -/
theorem c3_page_param_expansion (doc : Html) (url : String)
    (hpage : ((queryParams url).any (fun e => e.1 == "page")) = true)
    (hlm : findLoadMore doc = none)
    (htp : (detect_pagination doc url).total_pages = none) :
    (detect_pagination doc url).has_pagination = true ∧
    (detect_pagination doc url).ptype = some "url_param" ∧
    (detect_pagination doc url).param_name = some "page" ∧
    generate_pages url (detect_pagination doc url) 5 =
      [url, update_url_params url "page" "2", update_url_params url "page" "3",
       update_url_params url "page" "4",
       update_url_params url "page" "5"] ∧
    (∀ v : String, '&' ∉ v.data → '#' ∉ v.data → v ≠ "" →
      ((queryParams (update_url_params url "page" v)).find?
          (fun e => e.1 == "page")) = some ("page", [v]) ∧
      ∀ k', ("page" == k') = false →
        ((queryParams (update_url_params url "page" v)).find?
            (fun e => e.1 == k')) =
          (queryParams url).find? (fun e => e.1 == k')) := by
  obtain ⟨h1, h2, h3⟩ := detect_pagination_page_param doc url hpage hlm
  refine ⟨h1, h2, h3, generate_pages_param url _ h1 h2 h3 htp, ?_⟩
  intro v hv1 hv3 hv4
  have hq := queryParams_update url "page" v
    ⟨by decide, by decide, by decide⟩ ⟨hv1, hv3, hv4⟩
  rw [hq]
  exact ⟨setGroupKey_find_self _ _ _,
    fun k' hk' => setGroupKey_find_other _ _ _ k' hk'⟩

/-- C3 witness: a concrete `page=2` URL is detected and expanded into the
five page URLs, and the second parameter survives the rewrite. -/
theorem c3_page_param_expansion_witness :
    generate_pages "http://ex.com/dir?page=2&q=a"
        (detect_pagination emptyDoc "http://ex.com/dir?page=2&q=a") 5 =
      ["http://ex.com/dir?page=2&q=a",
       update_url_params "http://ex.com/dir?page=2&q=a" "page" "2",
       update_url_params "http://ex.com/dir?page=2&q=a" "page" "3",
       update_url_params "http://ex.com/dir?page=2&q=a" "page" "4",
       update_url_params "http://ex.com/dir?page=2&q=a" "page" "5"] :=
  (c3_page_param_expansion emptyDoc "http://ex.com/dir?page=2&q=a"
    (by decide) (by decide) (by decide)).2.2.2.1

end Scraper
